import Mathlib

/-!
Verification of the jobcontrol orchestration engine against its
natural-language specification.

Part 1 embeds `resolve_deps` from `src/jobcontrol/utils/depgraph.py`.
The Python `distances` dict is embedded as an association list
`List (V × Nat)` with insertion-ordered keys (`dictGet` / `dictSet`);
the recursive `_dfs_explore` closure is embedded as `dfsExplore` /
`dfsList`, made total with a fuel argument.  With fuel at least
`Fintype.card V` the fuel can never run out (the trail is duplicate-free,
which bounds the recursion depth), so the embedding computes exactly what
the Python recursion computes: either the distance dict or a `DepLoop`
error.
-/

/-- Errors of `resolve_deps`: `loop` is `DepLoop` raised at
`depgraph.py:24`; `fuel` is an artifact of the fuel-based embedding and is
proved unreachable (`dfsExplore_no_fuel_error`). -/
inductive DepErr where
  | loop
  | fuel
deriving DecidableEq

instance {ε α : Type} [DecidableEq ε] [DecidableEq α] : DecidableEq (Except ε α) := fun a b =>
  match a, b with
  | .ok x, .ok y => if h : x = y then .isTrue (by rw [h]) else .isFalse (by simp [h])
  | .error x, .error y => if h : x = y then .isTrue (by rw [h]) else .isFalse (by simp [h])
  | .ok _, .error _ => .isFalse (by simp)
  | .error _, .ok _ => .isFalse (by simp)

variable {V : Type} [DecidableEq V]

/-- Lookup in a Python dict embedded as an association list
(first entry with the given key wins; entries are keyed uniquely). -/
def dictGet : List (V × Nat) → V → Option Nat
  | [], _ => none
  | (k', v) :: rest, k => if k' = k then some v else dictGet rest k

/-- Assignment `d[k] = n` on a Python dict embedded as an association
list: replace the entry in place when the key is present, append it
otherwise (Python dicts keep insertion order for iteration). -/
def dictSet : List (V × Nat) → V → Nat → List (V × Nat)
  | [], k, n => [(k, n)]
  | (k', v') :: rest, k, n => if k' = k then (k', n) :: rest else (k', v') :: dictSet rest k n

/-- Embeds `depgraph.py:27-30`: `distances[dest] = len(trail)` when absent,
`distances[dest] = max(len(trail), distances[dest])` when present. -/
def distUpdate (dists : List (V × Nat)) (dest : V) (n : Nat) : List (V × Nat) :=
  match dictGet dists dest with
  | none => dictSet dists dest n
  | some d => dictSet dists dest (max n d)

/-- Embeds the `for dest in graph[vertex]` loop of `_dfs_explore`
(`depgraph.py:22-32`): `dfs` is the recursive call for the nested
exploration.  `dest ∈ trail` raises `DepLoop` (`depgraph.py:23-25`). -/
def dfsList (g : V → List V)
    (dfs : V → List V → List (V × Nat) → Except DepErr (List (V × Nat))) :
    List V → List V → List (V × Nat) → Except DepErr (List (V × Nat))
  | [], _, dists => .ok dists
  | dest :: rest, trail, dists =>
    if dest ∈ trail then .error .loop
    else
      match dfs dest (trail ++ [dest]) (distUpdate dists dest trail.length) with
      | .error e => .error e
      | .ok dists1 => dfsList g dfs rest trail dists1

/-- Embeds `_dfs_explore(vertex, trail)` (`depgraph.py:21-32`), with fuel
decreasing at each nested vertex entry; the Python recursion depth equals
the trail extension count, which `dfsExplore_no_fuel_error` bounds by the
number of vertices. -/
def dfsExplore (g : V → List V) :
    Nat → V → List V → List (V × Nat) → Except DepErr (List (V × Nat))
  | 0, _, _, _ => .error .fuel
  | fuel + 1, vertex, trail, dists => dfsList g (dfsExplore g fuel) (g vertex) trail dists

/-- Ascending order on the `(distance, vertex)` pairs built at
`depgraph.py:36`: Python tuple comparison, i.e. lexicographic. -/
def keyLE [LinearOrder V] (a b : Nat × V) : Prop :=
  a.1 < b.1 ∨ (a.1 = b.1 ∧ a.2 ≤ b.2)

instance [LinearOrder V] : DecidableRel (keyLE (V := V)) := fun a b => by
  unfold keyLE; infer_instance

instance [LinearOrder V] : IsTotal (Nat × V) keyLE where
  total a b := by
    unfold keyLE
    rcases Nat.lt_trichotomy a.1 b.1 with h | h | h
    · exact Or.inl (Or.inl h)
    · rcases le_total a.2 b.2 with h2 | h2
      · exact Or.inl (Or.inr ⟨h, h2⟩)
      · exact Or.inr (Or.inr ⟨h.symm, h2⟩)
    · exact Or.inr (Or.inl h)

instance [LinearOrder V] : IsTrans (Nat × V) keyLE where
  trans a b c hab hbc := by
    unfold keyLE at *
    rcases hab with h1 | ⟨h1, h1'⟩ <;> rcases hbc with h2 | ⟨h2, h2'⟩
    · exact Or.inl (h1.trans h2)
    · exact Or.inl (h2 ▸ h1)
    · exact Or.inl (h1 ▸ h2)
    · exact Or.inr ⟨h1.trans h2, h1'.trans h2'⟩

/-- Embeds `resolve_deps(graph, start)` (`depgraph.py:17-43`, default
`with_weights=False`): run the DFS from `start` with `trail = [start]` and
`distances = {start: 0}`, then build `items = [(y, x) for (x, y) in
distances.iteritems()]`, sort ascending, reverse, and keep the vertices.
Python's `graph[vertex]` lookup is embedded as a total adjacency function;
fuel `Fintype.card V` is provably sufficient.

The sorting stage (`depgraph.py:36-43`): `items = [(y, x) for (x, y) in
distances.iteritems()]`, `items.sort()`, `items.reverse()`, then keep
`x[1]` of each item. -/
def resolveOrder [LinearOrder V] (dists : List (V × Nat)) : List V :=
  let items := dists.map (fun p => (p.2, p.1))
  ((items.insertionSort keyLE).reverse).map Prod.snd

/-- Embeds `resolve_deps(graph, start)` (`depgraph.py:17-43`, default
`with_weights=False`): seed `distances = {start: 0}` and `trail = [start]`,
run `_dfs_explore(start, [start])`, then sort (`resolveOrder`). -/
def resolve_deps [LinearOrder V] [Fintype V] (g : V → List V) (start : V) :
    Except DepErr (List V) :=
  match dfsExplore g (Fintype.card V) start [start] [(start, 0)] with
  | .error e => .error e
  | .ok dists => .ok (resolveOrder dists)

/-- Reachability in the adjacency map, following edges from `s`:
`Reach g s v` holds when `v` is `s` itself or is reachable through
a chain of `dest ∈ g u` edges. -/
inductive Reach (g : V → List V) : V → V → Prop
  | refl (v : V) : Reach g v v
  | head {s w v : V} : w ∈ g s → Reach g w v → Reach g s v

/-- Acyclicity of the whole adjacency map: no edge closes a cycle. -/
def Acyclic (g : V → List V) : Prop :=
  ∀ u w, w ∈ g u → ¬ Reach g w u

/- Basic association-list (dict) lemmas. -/

theorem dictGet_dictSet_self (d : List (V × Nat)) (k : V) (n : Nat) :
    dictGet (dictSet d k n) k = some n := by
  induction d with
  | nil => simp [dictGet, dictSet]
  | cons p rest ih =>
    obtain ⟨k', v'⟩ := p
    by_cases h : k' = k
    · simp [dictGet, dictSet, h]
    · simp [dictGet, dictSet, h, ih]

theorem dictGet_dictSet_ne (d : List (V × Nat)) (k w : V) (n : Nat) (hw : w ≠ k) :
    dictGet (dictSet d k n) w = dictGet d w := by
  have hkw : ¬ k = w := fun h => hw h.symm
  induction d with
  | nil => simp [dictGet, dictSet, hkw]
  | cons p rest ih =>
    obtain ⟨k', v'⟩ := p
    by_cases h : k' = k
    · subst h
      simp [dictGet, dictSet, hkw]
    · simp [dictGet, dictSet, h, ih]

theorem dictGet_distUpdate_self (d : List (V × Nat)) (k : V) (n : Nat) :
    dictGet (distUpdate d k n) k =
      some (match dictGet d k with | none => n | some m => max n m) := by
  unfold distUpdate
  cases dictGet d k <;> simp [dictGet_dictSet_self]

theorem dictGet_distUpdate_ne (d : List (V × Nat)) (k w : V) (n : Nat) (hw : w ≠ k) :
    dictGet (distUpdate d k n) w = dictGet d w := by
  unfold distUpdate
  cases dictGet d k <;> simp [dictGet_dictSet_ne _ _ _ _ hw]

/-- Keys of the embedded dict. -/
def dictKeys (d : List (V × Nat)) : List V := d.map Prod.fst

theorem dictKeys_dictSet (d : List (V × Nat)) (k : V) (n : Nat) :
    dictKeys (dictSet d k n) =
      if k ∈ dictKeys d then dictKeys d else dictKeys d ++ [k] := by
  induction d with
  | nil => simp [dictKeys, dictSet]
  | cons p rest ih =>
    obtain ⟨k', v'⟩ := p
    by_cases h : k' = k
    · subst h
      simp [dictKeys, dictSet]
    · have : ¬ k = k' := fun hh => h hh.symm
      simp only [dictKeys, dictSet, if_neg h, List.map_cons, List.mem_cons]
      simp only [dictKeys] at ih
      rw [ih]
      by_cases hm : k ∈ rest.map Prod.fst <;> simp [hm, this]

theorem dictGet_isSome_iff_mem_keys (d : List (V × Nat)) (k : V) :
    (dictGet d k).isSome ↔ k ∈ dictKeys d := by
  induction d with
  | nil => simp [dictGet, dictKeys]
  | cons p rest ih =>
    obtain ⟨k', v'⟩ := p
    by_cases h : k' = k
    · subst h
      simp [dictGet, dictKeys]
    · have : ¬ k = k' := fun hh => h hh.symm
      simp [dictGet, dictKeys, h, this, ih]

theorem dictKeys_nodup_dictSet (d : List (V × Nat)) (k : V) (n : Nat)
    (hd : (dictKeys d).Nodup) : (dictKeys (dictSet d k n)).Nodup := by
  rw [dictKeys_dictSet]
  by_cases hm : k ∈ dictKeys d
  · simpa [hm] using hd
  · rw [if_neg hm]
    refine List.Nodup.append hd (List.nodup_singleton k) ?_
    intro a ha hak
    rw [List.mem_singleton] at hak
    exact hm (hak ▸ ha)

theorem dictKeys_nodup_distUpdate (d : List (V × Nat)) (k : V) (n : Nat)
    (hd : (dictKeys d).Nodup) : (dictKeys (distUpdate d k n)).Nodup := by
  unfold distUpdate
  cases dictGet d k <;> exact dictKeys_nodup_dictSet _ _ _ hd

/- Ordering between distance dicts: values only ever grow during the DFS. -/

/-- Pointwise growth of the distance dict: every recorded distance stays
recorded and does not decrease. -/
def DistsLE (d1 d2 : List (V × Nat)) : Prop :=
  ∀ v n, dictGet d1 v = some n → ∃ m, dictGet d2 v = some m ∧ n ≤ m

theorem distsLE_refl (d : List (V × Nat)) : DistsLE d d :=
  fun _ n h => ⟨n, h, le_rfl⟩

theorem distsLE_trans {a b c : List (V × Nat)} (h1 : DistsLE a b) (h2 : DistsLE b c) :
    DistsLE a c := by
  intro v n hv
  obtain ⟨m, hm, hnm⟩ := h1 v n hv
  obtain ⟨p, hp, hmp⟩ := h2 v m hm
  exact ⟨p, hp, hnm.trans hmp⟩

theorem distsLE_distUpdate (d : List (V × Nat)) (k : V) (n : Nat) :
    DistsLE d (distUpdate d k n) := by
  intro v m hv
  by_cases h : v = k
  · subst h
    rw [dictGet_distUpdate_self, hv]
    exact ⟨max n m, rfl, le_max_right n m⟩
  · rw [dictGet_distUpdate_ne _ _ _ _ h]
    exact ⟨m, hv, le_rfl⟩

theorem distsLE_isSome {d1 d2 : List (V × Nat)} (h : DistsLE d1 d2) (v : V)
    (hv : (dictGet d1 v).isSome) : (dictGet d2 v).isSome := by
  obtain ⟨n, hn⟩ := Option.isSome_iff_exists.mp hv
  obtain ⟨m, hm, _⟩ := h v n hn
  exact Option.isSome_iff_exists.mpr ⟨m, hm⟩

/- Monotonicity of the DFS over the distance dict. -/

theorem dfsList_mono (g : V → List V)
    (dfs : V → List V → List (V × Nat) → Except DepErr (List (V × Nat)))
    (hdfs : ∀ v tr d d1, dfs v tr d = .ok d1 → DistsLE d d1) :
    ∀ l trail d d1, dfsList g dfs l trail d = .ok d1 → DistsLE d d1
  | [], _, d, d1, h => by
    simp only [dfsList, Except.ok.injEq] at h
    exact h ▸ distsLE_refl d
  | dest :: rest, trail, d, d1, h => by
    simp only [dfsList] at h
    by_cases hmem : dest ∈ trail
    · simp [hmem] at h
    · rw [if_neg hmem] at h
      cases hcall : dfs dest (trail ++ [dest]) (distUpdate d dest trail.length) with
      | error e => rw [hcall] at h; cases h
      | ok mid =>
        rw [hcall] at h
        exact distsLE_trans (distsLE_distUpdate d dest trail.length)
          (distsLE_trans (hdfs _ _ _ _ hcall) (dfsList_mono g dfs hdfs rest trail mid d1 h))

theorem dfsExplore_mono (g : V → List V) :
    ∀ fuel v trail d d1, dfsExplore g fuel v trail d = .ok d1 → DistsLE d d1
  | 0, _, _, _, _, h => by simp [dfsExplore] at h
  | fuel + 1, v, trail, d, d1, h => by
    simp only [dfsExplore] at h
    exact dfsList_mono g _ (fun v' tr' d' d1' => dfsExplore_mono g fuel v' tr' d' d1')
      _ _ _ _ h

/- Stability: distances of vertices on the trail never change (nothing may
point back into the trail without raising `DepLoop`). -/

theorem dfsList_stable (g : V → List V)
    (dfs : V → List V → List (V × Nat) → Except DepErr (List (V × Nat)))
    (hdfs : ∀ v tr d d1, dfs v tr d = .ok d1 → ∀ u ∈ tr, dictGet d1 u = dictGet d u) :
    ∀ l trail d d1, dfsList g dfs l trail d = .ok d1 →
      ∀ u ∈ trail, dictGet d1 u = dictGet d u
  | [], _, d, d1, h => by
    simp only [dfsList, Except.ok.injEq] at h
    exact h ▸ fun u _ => rfl
  | dest :: rest, trail, d, d1, h => by
    simp only [dfsList] at h
    by_cases hmem : dest ∈ trail
    · simp [hmem] at h
    · rw [if_neg hmem] at h
      cases hcall : dfs dest (trail ++ [dest]) (distUpdate d dest trail.length) with
      | error e => rw [hcall] at h; cases h
      | ok mid =>
        rw [hcall] at h
        intro u hu
        have hne : u ≠ dest := fun he => hmem (he ▸ hu)
        calc dictGet d1 u = dictGet mid u :=
              dfsList_stable g dfs hdfs rest trail mid d1 h u hu
          _ = dictGet (distUpdate d dest trail.length) u :=
              hdfs _ _ _ _ hcall u (List.mem_append_left _ hu)
          _ = dictGet d u := dictGet_distUpdate_ne _ _ _ _ hne

theorem dfsExplore_stable (g : V → List V) :
    ∀ fuel v trail d d1, dfsExplore g fuel v trail d = .ok d1 →
      ∀ u ∈ trail, dictGet d1 u = dictGet d u
  | 0, _, _, _, _, h => by simp [dfsExplore] at h
  | fuel + 1, v, trail, d, d1, h => by
    simp only [dfsExplore] at h
    exact dfsList_stable g _ (fun v' tr' d' d1' => dfsExplore_stable g fuel v' tr' d' d1')
      _ _ _ _ h

/- The fuel bound: with a duplicate-free trail and fuel at least
`Fintype.card V + 1 - trail.length`, the fuel never runs out, so the
embedding agrees with the unbounded Python recursion. -/

theorem dfsList_no_fuel [Fintype V] (g : V → List V) (fuel : Nat)
    (dfs : V → List V → List (V × Nat) → Except DepErr (List (V × Nat)))
    (hdfs : ∀ v tr d, tr.Nodup → Fintype.card V + 1 ≤ fuel + tr.length →
      dfs v tr d ≠ .error .fuel) :
    ∀ l trail d, trail.Nodup → Fintype.card V + 1 ≤ (fuel + 1) + trail.length →
      dfsList g dfs l trail d ≠ .error .fuel
  | [], _, d, _, _ => by simp [dfsList]
  | dest :: rest, trail, d, hnodup, hcard => by
    simp only [dfsList]
    by_cases hmem : dest ∈ trail
    · simp [hmem]
    · rw [if_neg hmem]
      cases hcall : dfs dest (trail ++ [dest]) (distUpdate d dest trail.length) with
      | error e =>
        have hnodup' : (trail ++ [dest]).Nodup := by
          simp [List.nodup_append, hnodup, hmem]
        have hcard' : Fintype.card V + 1 ≤ fuel + (trail ++ [dest]).length := by
          simp only [List.length_append, List.length_singleton]
          omega
        intro hcontra
        injection hcontra with he
        exact hdfs dest (trail ++ [dest]) (distUpdate d dest trail.length)
          hnodup' hcard' (hcall.trans (by rw [he]))
      | ok mid =>
        exact dfsList_no_fuel g fuel dfs hdfs rest trail mid hnodup hcard

theorem dfsExplore_no_fuel_error [Fintype V] (g : V → List V) :
    ∀ fuel v trail d, trail.Nodup → Fintype.card V + 1 ≤ fuel + trail.length →
      dfsExplore g fuel v trail d ≠ .error .fuel
  | 0, v, trail, d, hnodup, hcard => by
    have := List.Nodup.length_le_card hnodup
    omega
  | fuel + 1, v, trail, d, hnodup, hcard => by
    simp only [dfsExplore]
    exact dfsList_no_fuel g fuel _
      (fun v' tr' d' hn hc => dfsExplore_no_fuel_error g fuel v' tr' d' hn hc)
      _ _ _ hnodup hcard

/- Every explored destination ends up recorded with distance at least the
length of the trail it was reached from. -/

theorem dfsList_dest_ge (g : V → List V)
    (dfs : V → List V → List (V × Nat) → Except DepErr (List (V × Nat)))
    (hdfs : ∀ v tr d d1, dfs v tr d = .ok d1 → DistsLE d d1) :
    ∀ l trail d d1, dfsList g dfs l trail d = .ok d1 →
      ∀ dest ∈ l, ∃ m, dictGet d1 dest = some m ∧ trail.length ≤ m
  | [], _, _, _, _, dest, hdest => by simp at hdest
  | dest0 :: rest, trail, d, d1, h, dest, hdest => by
    simp only [dfsList] at h
    by_cases hmem : dest0 ∈ trail
    · simp [hmem] at h
    · rw [if_neg hmem] at h
      cases hcall : dfs dest0 (trail ++ [dest0]) (distUpdate d dest0 trail.length) with
      | error e => rw [hcall] at h; cases h
      | ok mid =>
        rw [hcall] at h
        rcases List.mem_cons.mp hdest with heq | htail
        · subst heq
          have hupd : ∃ m0, dictGet (distUpdate d dest trail.length) dest = some m0 ∧
              trail.length ≤ m0 := by
            rw [dictGet_distUpdate_self]
            cases dictGet d dest with
            | none => exact ⟨trail.length, rfl, le_rfl⟩
            | some old => exact ⟨max trail.length old, rfl, le_max_left _ _⟩
          obtain ⟨m0, hm0, hlen⟩ := hupd
          obtain ⟨m1, hm1, h01⟩ := hdfs _ _ _ _ hcall dest m0 hm0
          obtain ⟨m2, hm2, h12⟩ := dfsList_mono g dfs hdfs rest trail mid d1 h dest m1 hm1
          exact ⟨m2, hm2, hlen.trans (h01.trans h12)⟩
        · exact dfsList_dest_ge g dfs hdfs rest trail mid d1 h dest htail

theorem dfsExplore_dest_ge (g : V → List V) (fuel : Nat) (v : V) (trail : List V)
    (d d1 : List (V × Nat)) (h : dfsExplore g fuel v trail d = .ok d1) :
    ∀ w ∈ g v, ∃ m, dictGet d1 w = some m ∧ trail.length ≤ m := by
  cases fuel with
  | zero => simp [dfsExplore] at h
  | succ fuel =>
    simp only [dfsExplore] at h
    exact dfsList_dest_ge g _ (fun v' tr' d' d1' => dfsExplore_mono g fuel v' tr' d' d1')
      _ _ _ _ h

/- The keys of the distance dict stay duplicate-free. -/

theorem dfsList_keys_nodup (g : V → List V)
    (dfs : V → List V → List (V × Nat) → Except DepErr (List (V × Nat)))
    (hdfs : ∀ v tr d d1, dfs v tr d = .ok d1 → (dictKeys d).Nodup → (dictKeys d1).Nodup) :
    ∀ l trail d d1, dfsList g dfs l trail d = .ok d1 →
      (dictKeys d).Nodup → (dictKeys d1).Nodup
  | [], _, d, d1, h, hd => by
    simp only [dfsList, Except.ok.injEq] at h
    exact h ▸ hd
  | dest :: rest, trail, d, d1, h, hd => by
    simp only [dfsList] at h
    by_cases hmem : dest ∈ trail
    · simp [hmem] at h
    · rw [if_neg hmem] at h
      cases hcall : dfs dest (trail ++ [dest]) (distUpdate d dest trail.length) with
      | error e => rw [hcall] at h; cases h
      | ok mid =>
        rw [hcall] at h
        exact dfsList_keys_nodup g dfs hdfs rest trail mid d1 h
          (hdfs _ _ _ _ hcall (dictKeys_nodup_distUpdate d dest trail.length hd))

theorem dfsExplore_keys_nodup (g : V → List V) :
    ∀ fuel v trail d d1, dfsExplore g fuel v trail d = .ok d1 →
      (dictKeys d).Nodup → (dictKeys d1).Nodup
  | 0, _, _, _, _, h => by simp [dfsExplore] at h
  | fuel + 1, v, trail, d, d1, h => by
    simp only [dfsExplore] at h
    exact dfsList_keys_nodup g _
      (fun v' tr' d' d1' => dfsExplore_keys_nodup g fuel v' tr' d' d1') _ _ _ _ h

/- Reachability helper lemmas. -/

theorem Reach.snoc {g : V → List V} {s u w : V} (h : Reach g s u) (hw : w ∈ g u) :
    Reach g s w := by
  induction h with
  | refl v => exact Reach.head hw (Reach.refl w)
  | head hm _ ih => exact Reach.head hm (ih hw)

/- Completeness: after a successful exploration of `vertex`, every vertex
reachable through an edge of `vertex` is recorded in the distance dict. -/

theorem dfsList_complete (g : V → List V)
    (dfs : V → List V → List (V × Nat) → Except DepErr (List (V × Nat)))
    (hmono : ∀ v tr d d1, dfs v tr d = .ok d1 → DistsLE d d1)
    (hdfs : ∀ v tr d d1, dfs v tr d = .ok d1 →
      ∀ w ∈ g v, ∀ x, Reach g w x → (dictGet d1 x).isSome) :
    ∀ l trail d d1, dfsList g dfs l trail d = .ok d1 →
      ∀ dest ∈ l, ∀ x, Reach g dest x → (dictGet d1 x).isSome
  | [], _, _, _, _, dest, hdest => by simp at hdest
  | dest0 :: rest, trail, d, d1, h, dest, hdest => by
    simp only [dfsList] at h
    by_cases hmem : dest0 ∈ trail
    · simp [hmem] at h
    · rw [if_neg hmem] at h
      cases hcall : dfs dest0 (trail ++ [dest0]) (distUpdate d dest0 trail.length) with
      | error e => rw [hcall] at h; cases h
      | ok mid =>
        rw [hcall] at h
        rcases List.mem_cons.mp hdest with heq | htail
        · subst heq
          intro x hx
          cases hx with
          | refl =>
            have hsome : (dictGet (distUpdate d dest trail.length) dest).isSome := by
              rw [dictGet_distUpdate_self]
              cases dictGet d dest <;> simp
            exact distsLE_isSome (dfsList_mono g dfs hmono rest trail mid d1 h) _
              (distsLE_isSome (hmono _ _ _ _ hcall) _ hsome)
          | head hw hr =>
            exact distsLE_isSome (dfsList_mono g dfs hmono rest trail mid d1 h) _
              (hdfs _ _ _ _ hcall _ hw _ hr)
        · exact dfsList_complete g dfs hmono hdfs rest trail mid d1 h dest htail

theorem dfsExplore_complete (g : V → List V) :
    ∀ fuel v trail d d1, dfsExplore g fuel v trail d = .ok d1 →
      ∀ w ∈ g v, ∀ x, Reach g w x → (dictGet d1 x).isSome
  | 0, _, _, _, _, h => by simp [dfsExplore] at h
  | fuel + 1, v, trail, d, d1, h => by
    simp only [dfsExplore] at h
    exact dfsList_complete g _ (fun v' tr' d' d1' => dfsExplore_mono g fuel v' tr' d' d1')
      (fun v' tr' d' d1' => dfsExplore_complete g fuel v' tr' d' d1') _ _ _ _ h

/- Soundness: only vertices reachable from the root ever enter the
distance dict. -/

theorem dfsList_sound (g : V → List V) (root : V)
    (dfs : V → List V → List (V × Nat) → Except DepErr (List (V × Nat)))
    (hdfs : ∀ v tr d d1, dfs v tr d = .ok d1 → Reach g root v →
      (∀ x, (dictGet d x).isSome → Reach g root x) →
      ∀ x, (dictGet d1 x).isSome → Reach g root x) :
    ∀ l trail d d1, dfsList g dfs l trail d = .ok d1 →
      (∀ dest ∈ l, Reach g root dest) →
      (∀ x, (dictGet d x).isSome → Reach g root x) →
      ∀ x, (dictGet d1 x).isSome → Reach g root x
  | [], _, d, d1, h, _, hd => by
    simp only [dfsList, Except.ok.injEq] at h
    exact h ▸ hd
  | dest0 :: rest, trail, d, d1, h, hl, hd => by
    simp only [dfsList] at h
    by_cases hmem : dest0 ∈ trail
    · simp [hmem] at h
    · rw [if_neg hmem] at h
      cases hcall : dfs dest0 (trail ++ [dest0]) (distUpdate d dest0 trail.length) with
      | error e => rw [hcall] at h; cases h
      | ok mid =>
        rw [hcall] at h
        have hd' : ∀ x, (dictGet (distUpdate d dest0 trail.length) x).isSome →
            Reach g root x := by
          intro x hx
          by_cases hxd : x = dest0
          · exact hxd ▸ hl dest0 (List.mem_cons_self _ _)
          · rw [dictGet_distUpdate_ne _ _ _ _ hxd] at hx
            exact hd x hx
        have hmid : ∀ x, (dictGet mid x).isSome → Reach g root x :=
          hdfs _ _ _ _ hcall (hl dest0 (List.mem_cons_self _ _)) hd'
        exact dfsList_sound g root dfs hdfs rest trail mid d1 h
          (fun dest hdest => hl dest (List.mem_cons_of_mem _ hdest)) hmid

theorem dfsExplore_sound (g : V → List V) (root : V) :
    ∀ fuel v trail d d1, dfsExplore g fuel v trail d = .ok d1 → Reach g root v →
      (∀ x, (dictGet d x).isSome → Reach g root x) →
      ∀ x, (dictGet d1 x).isSome → Reach g root x
  | 0, _, _, _, _, h, _, _ => by simp [dfsExplore] at h
  | fuel + 1, v, trail, d, d1, h, hv, hd => by
    simp only [dfsExplore] at h
    exact dfsList_sound g root _
      (fun v' tr' d' d1' h' hv' hd' => dfsExplore_sound g root fuel v' tr' d' d1' h' hv' hd')
      _ _ _ _ h (fun dest hdest => hv.snoc hdest) hd

/- The central edge invariant: for every recorded vertex not currently on
the trail, each of its graph successors is recorded with a strictly larger
distance.  This is what makes the final descending sort a topological
order. -/

/-- Edge invariant of the distance dict relative to the current trail. -/
def EdgeInv (g : V → List V) (trail : List V) (d : List (V × Nat)) : Prop :=
  ∀ u du, u ∉ trail → dictGet d u = some du →
    ∀ v ∈ g u, ∃ dv, dictGet d v = some dv ∧ du + 1 ≤ dv

theorem edgeInv_distUpdate (g : V → List V) (trail : List V) (d : List (V × Nat))
    (dest : V) (hinv : EdgeInv g trail d) :
    EdgeInv g (trail ++ [dest]) (distUpdate d dest trail.length) := by
  intro u du hu hget v hv
  have hud : u ≠ dest := by
    intro he
    subst he
    exact hu (List.mem_append_right _ (List.mem_singleton_self u))
  have hut : u ∉ trail := fun he => hu (List.mem_append_left _ he)
  rw [dictGet_distUpdate_ne _ _ _ _ hud] at hget
  obtain ⟨dv, hdv, hle⟩ := hinv u du hut hget v hv
  obtain ⟨dv', hdv', hle'⟩ := distsLE_distUpdate d dest trail.length v dv hdv
  exact ⟨dv', hdv', hle.trans hle'⟩

theorem dfsList_edgeInv (g : V → List V)
    (dfs : V → List V → List (V × Nat) → Except DepErr (List (V × Nat)))
    (hmono : ∀ v tr d d1, dfs v tr d = .ok d1 → DistsLE d d1)
    (hstable : ∀ v tr d d1, dfs v tr d = .ok d1 → ∀ u ∈ tr, dictGet d1 u = dictGet d u)
    (hdestge : ∀ v tr d d1, dfs v tr d = .ok d1 →
      ∀ w ∈ g v, ∃ m, dictGet d1 w = some m ∧ tr.length ≤ m)
    (hdfs : ∀ v tr d d1, dfs v tr d = .ok d1 → EdgeInv g tr d → EdgeInv g tr d1) :
    ∀ l trail d d1, dfsList g dfs l trail d = .ok d1 →
      EdgeInv g trail d → EdgeInv g trail d1
  | [], _, d, d1, h, hinv => by
    simp only [dfsList, Except.ok.injEq] at h
    exact h ▸ hinv
  | dest0 :: rest, trail, d, d1, h, hinv => by
    simp only [dfsList] at h
    by_cases hmem : dest0 ∈ trail
    · simp [hmem] at h
    · rw [if_neg hmem] at h
      cases hcall : dfs dest0 (trail ++ [dest0]) (distUpdate d dest0 trail.length) with
      | error e => rw [hcall] at h; cases h
      | ok mid =>
        rw [hcall] at h
        have hinv' : EdgeInv g (trail ++ [dest0]) mid :=
          hdfs _ _ _ _ hcall (edgeInv_distUpdate g trail d dest0 hinv)
        have hmidinv : EdgeInv g trail mid := by
          intro u du hu hget v hv
          by_cases hud : u = dest0
          · subst hud
            have hstab : dictGet mid u = dictGet (distUpdate d u trail.length) u :=
              hstable _ _ _ _ hcall u
                (List.mem_append_right _ (List.mem_singleton_self u))
            rw [hstab, dictGet_distUpdate_self] at hget
            obtain ⟨m, hm, hlen⟩ := hdestge _ _ _ _ hcall v hv
            simp only [List.length_append, List.length_singleton] at hlen
            cases hold : dictGet d u with
            | none =>
              rw [hold] at hget
              have hdu : trail.length = du := by simpa using hget
              exact ⟨m, hm, by omega⟩
            | some old =>
              rw [hold] at hget
              have hdu : max trail.length old = du := by simpa using hget
              by_cases hcmp : old ≤ trail.length
              · have h3 : max trail.length old = trail.length := Nat.max_eq_left hcmp
                exact ⟨m, hm, by omega⟩
              · have hdu' : du = old := by
                  have h4 : max trail.length old = old := Nat.max_eq_right (by omega)
                  omega
                obtain ⟨dv0, hdv0, hle0⟩ := hinv u old hu hold v hv
                obtain ⟨dv1, hdv1, hle1⟩ :=
                  distsLE_distUpdate d u trail.length v dv0 hdv0
                obtain ⟨dv2, hdv2, hle2⟩ := hmono _ _ _ _ hcall v dv1 hdv1
                exact ⟨dv2, hdv2, by omega⟩
          · have hu' : u ∉ trail ++ [dest0] := by
              intro he
              rcases List.mem_append.mp he with h1 | h1
              · exact hu h1
              · exact hud (List.mem_singleton.mp h1)
            exact hinv' u du hu' hget v hv
        exact dfsList_edgeInv g dfs hmono hstable hdestge hdfs rest trail mid d1 h hmidinv

theorem dfsExplore_edgeInv (g : V → List V) :
    ∀ fuel v trail d d1, dfsExplore g fuel v trail d = .ok d1 →
      EdgeInv g trail d → EdgeInv g trail d1
  | 0, _, _, _, _, h, _ => by simp [dfsExplore] at h
  | fuel + 1, v, trail, d, d1, h, hinv => by
    simp only [dfsExplore] at h
    exact dfsList_edgeInv g _
      (fun v' tr' d' d1' => dfsExplore_mono g fuel v' tr' d' d1')
      (fun v' tr' d' d1' => dfsExplore_stable g fuel v' tr' d' d1')
      (fun v' tr' d' d1' => dfsExplore_dest_ge g fuel v' tr' d' d1')
      (fun v' tr' d' d1' => dfsExplore_edgeInv g fuel v' tr' d' d1') _ _ _ _ h hinv

/- A `DepLoop` error really means the graph has a cycle: the trail is a
chain of edges, and the destination that re-enters it closes a loop. -/

theorem chain_reach_getLast (g : V → List V) :
    ∀ trail : List V, trail.Chain' (fun a b => b ∈ g a) →
      ∀ u ∈ trail, ∀ z, trail.getLast? = some z → Reach g u z
  | [], _, u, hu, _, _ => by simp at hu
  | [x], _, u, hu, z, hz => by
    simp only [List.mem_singleton] at hu
    simp only [List.getLast?_singleton, Option.some.injEq] at hz
    subst hu
    subst hz
    exact Reach.refl u
  | x :: y :: rest, hchain, u, hu, z, hz => by
    have hedge : y ∈ g x := (List.chain'_cons.mp hchain).1
    have htail : (y :: rest).Chain' (fun a b => b ∈ g a) := (List.chain'_cons.mp hchain).2
    have hz' : (y :: rest).getLast? = some z := by
      rw [List.getLast?_cons_cons] at hz
      exact hz
    rcases List.mem_cons.mp hu with heq | htl
    · subst heq
      exact Reach.head hedge
        (chain_reach_getLast g (y :: rest) htail y (List.mem_cons_self _ _) z hz')
    · exact chain_reach_getLast g (y :: rest) htail u htl z hz'

theorem dfsList_loop_cycle (g : V → List V)
    (dfs : V → List V → List (V × Nat) → Except DepErr (List (V × Nat)))
    (hdfs : ∀ v tr d, tr.Chain' (fun a b => b ∈ g a) → tr.getLast? = some v →
      dfs v tr d = .error .loop → ∃ a b, b ∈ g a ∧ Reach g b a) :
    ∀ (vertex : V) l trail d, l ⊆ g vertex →
      trail.Chain' (fun a b => b ∈ g a) → trail.getLast? = some vertex →
      dfsList g dfs l trail d = .error .loop → ∃ a b, b ∈ g a ∧ Reach g b a
  | _, [], _, _, _, _, _, h => by simp [dfsList] at h
  | vertex, dest0 :: rest, trail, d, hsub, hchain, hlast, h => by
    simp only [dfsList] at h
    by_cases hmem : dest0 ∈ trail
    · exact ⟨vertex, dest0, hsub (List.mem_cons_self _ _),
        chain_reach_getLast g trail hchain dest0 hmem vertex hlast⟩
    · rw [if_neg hmem] at h
      cases hcall : dfs dest0 (trail ++ [dest0]) (distUpdate d dest0 trail.length) with
      | error e =>
        rw [hcall] at h
        injection h with he
        have hchain' : (trail ++ [dest0]).Chain' (fun a b => b ∈ g a) := by
          rw [List.chain'_append]
          refine ⟨hchain, List.chain'_singleton dest0, ?_⟩
          intro x hx y hy
          simp at hy
          rw [hlast] at hx
          simp at hx
          exact hy ▸ hx ▸ hsub (List.mem_cons_self _ _)
        have hlast' : (trail ++ [dest0]).getLast? = some dest0 := by
          simp [List.getLast?_append]
        exact hdfs dest0 (trail ++ [dest0]) (distUpdate d dest0 trail.length)
          hchain' hlast' (hcall.trans (by rw [he]))
      | ok mid =>
        rw [hcall] at h
        exact dfsList_loop_cycle g dfs hdfs vertex rest trail mid
          (fun x hx => hsub (List.mem_cons_of_mem _ hx)) hchain hlast h

theorem dfsExplore_loop_cycle (g : V → List V) :
    ∀ fuel v trail d, trail.Chain' (fun a b => b ∈ g a) → trail.getLast? = some v →
      dfsExplore g fuel v trail d = .error .loop → ∃ a b, b ∈ g a ∧ Reach g b a
  | 0, _, _, _, _, _, h => by simp [dfsExplore] at h
  | fuel + 1, v, trail, d, hchain, hlast, h => by
    simp only [dfsExplore] at h
    exact dfsList_loop_cycle g _
      (fun v' tr' d' hc hl hh => dfsExplore_loop_cycle g fuel v' tr' d' hc hl hh)
      v (g v) trail d (fun x hx => hx) hchain hlast h

/- Assembly: invariants of the top-level exploration started by
`resolve_deps` (trail `[start]`, distances `{start: 0}`). -/

theorem dictGet_mem (d : List (V × Nat)) (k : V) (n : Nat) (h : dictGet d k = some n) :
    (k, n) ∈ d := by
  induction d with
  | nil => simp [dictGet] at h
  | cons p rest ih =>
    obtain ⟨k', v'⟩ := p
    by_cases hk : k' = k
    · subst hk
      simp only [dictGet, if_true] at h
      injection h with h
      subst h
      exact List.mem_cons_self _ _
    · simp only [dictGet] at h
      rw [if_neg hk] at h
      exact List.mem_cons_of_mem _ (ih h)

theorem dictGet_start_init (start x : V) :
    dictGet [(start, 0)] x = if start = x then some 0 else none := by
  simp [dictGet]

theorem dfsStart_inv [Fintype V] (g : V → List V) (start : V) (d1 : List (V × Nat))
    (hres : dfsExplore g (Fintype.card V) start [start] [(start, 0)] = .ok d1) :
    dictGet d1 start = some 0 ∧
    (∀ x, (dictGet d1 x).isSome ↔ Reach g start x) ∧
    (∀ u du, dictGet d1 u = some du →
      ∀ v ∈ g u, ∃ dv, dictGet d1 v = some dv ∧ du + 1 ≤ dv) ∧
    (dictKeys d1).Nodup := by
  have hstart : dictGet d1 start = some 0 := by
    have := dfsExplore_stable g (Fintype.card V) start [start] [(start, 0)] d1 hres
      start (List.mem_singleton_self start)
    rw [this, dictGet_start_init, if_pos rfl]
  have hsound : ∀ x, (dictGet d1 x).isSome → Reach g start x := by
    refine dfsExplore_sound g start (Fintype.card V) start [start] _ d1 hres
      (Reach.refl start) ?_
    intro x hx
    rw [dictGet_start_init] at hx
    by_cases h : start = x
    · exact h ▸ Reach.refl start
    · rw [if_neg h] at hx
      simp at hx
  have hcomplete : ∀ x, Reach g start x → (dictGet d1 x).isSome := by
    intro x hx
    cases hx with
    | refl => rw [hstart]; simp
    | head hw hr =>
      exact dfsExplore_complete g (Fintype.card V) start [start] [(start, 0)] d1 hres _ hw _ hr
  have hbase : EdgeInv g [start] [(start, 0)] := by
    intro u du hu hget v hv
    rw [dictGet_start_init] at hget
    have : start ≠ u := fun h => hu (h ▸ List.mem_singleton_self start)
    rw [if_neg this] at hget
    cases hget
  have hedge : EdgeInv g [start] d1 :=
    dfsExplore_edgeInv g (Fintype.card V) start [start] _ d1 hres hbase
  have hfull : ∀ u du, dictGet d1 u = some du →
      ∀ v ∈ g u, ∃ dv, dictGet d1 v = some dv ∧ du + 1 ≤ dv := by
    intro u du hget v hv
    by_cases hus : u = start
    · subst hus
      rw [hstart] at hget
      injection hget with hdu
      obtain ⟨m, hm, hlen⟩ := dfsExplore_dest_ge g (Fintype.card V) u [u] _ d1 hres v hv
      simp only [List.length_singleton] at hlen
      exact ⟨m, hm, by omega⟩
    · exact hedge u du (by simp [hus]) hget v hv
  have hnodup : (dictKeys d1).Nodup :=
    dfsExplore_keys_nodup g (Fintype.card V) start [start] _ d1 hres
      (by simp [dictKeys])
  exact ⟨hstart, fun x => ⟨hsound x, hcomplete x⟩, hfull, hnodup⟩

theorem reach_value_le (g : V → List V) (d1 : List (V × Nat))
    (hfull : ∀ u du, dictGet d1 u = some du →
      ∀ v ∈ g u, ∃ dv, dictGet d1 v = some dv ∧ du + 1 ≤ dv)
    {a b : V} (h : Reach g a b) :
    ∀ da, dictGet d1 a = some da → ∃ db, dictGet d1 b = some db ∧ da ≤ db := by
  induction h with
  | refl v => exact fun da hda => ⟨da, hda, le_rfl⟩
  | head hm _ ih =>
    intro da hda
    obtain ⟨dw, hdw, hle⟩ := hfull _ da hda _ hm
    obtain ⟨db, hdb, hle2⟩ := ih dw hdw
    exact ⟨db, hdb, by omega⟩

/- Properties of the sorting stage. -/

theorem resolveOrder_perm [LinearOrder V] (d1 : List (V × Nat)) :
    (resolveOrder d1).Perm (dictKeys d1) := by
  unfold resolveOrder
  have h1 : ((d1.map (fun p => (p.2, p.1))).insertionSort keyLE).reverse.Perm
      (d1.map (fun p => (p.2, p.1))) :=
    (List.reverse_perm _).trans (List.perm_insertionSort keyLE _)
  have h2 := h1.map Prod.snd
  rwa [show (d1.map (fun p => (p.2, p.1))).map Prod.snd = dictKeys d1 from by
    rw [List.map_map]; rfl] at h2

theorem resolveOrder_nodup [LinearOrder V] (d1 : List (V × Nat))
    (h : (dictKeys d1).Nodup) : (resolveOrder d1).Nodup :=
  (resolveOrder_perm d1).symm.nodup h

theorem resolveOrder_mem [LinearOrder V] (d1 : List (V × Nat)) (v : V) :
    v ∈ resolveOrder d1 ↔ (dictGet d1 v).isSome := by
  rw [(resolveOrder_perm d1).mem_iff]
  exact (dictGet_isSome_iff_mem_keys d1 v).symm

theorem indexOf_map_snd_get [LinearOrder V] (rev : List (Nat × V))
    (hnodup : (rev.map Prod.snd).Nodup) (i : Fin rev.length) :
    (rev.map Prod.snd).indexOf (rev.get i).2 = i.val := by
  have hlt : i.val < (rev.map Prod.snd).length := by
    rw [List.length_map]; exact i.isLt
  have hget : (rev.map Prod.snd).get ⟨i.val, hlt⟩ = (rev.get i).2 := by
    simp [List.get_eq_getElem, List.getElem_map]
  have h2 := List.get_indexOf hnodup ⟨i.val, hlt⟩
  rw [hget] at h2
  exact h2

theorem resolveOrder_index_lt [LinearOrder V] (d1 : List (V × Nat))
    (hnodupkeys : (dictKeys d1).Nodup)
    {du dv : Nat} {u v : V}
    (hu : dictGet d1 u = some du) (hv : dictGet d1 v = some dv) (hlt : du < dv) :
    (resolveOrder d1).indexOf v < (resolveOrder d1).indexOf u := by
  have hsnd : (d1.map (fun p => (p.2, p.1))).map Prod.snd = dictKeys d1 := by
    rw [List.map_map]; rfl
  have hnodup : ((((d1.map (fun p => (p.2, p.1))).insertionSort keyLE).reverse).map
      Prod.snd).Nodup := by
    have hperm : ((((d1.map (fun p => (p.2, p.1))).insertionSort keyLE).reverse).map
        Prod.snd).Perm (dictKeys d1) := by
      have h1 := ((List.reverse_perm _).trans
        (List.perm_insertionSort keyLE (d1.map (fun p => (p.2, p.1))))).map Prod.snd
      rwa [hsnd] at h1
    exact hperm.symm.nodup hnodupkeys
  have hsorted : (((d1.map (fun p => (p.2, p.1))).insertionSort keyLE).reverse).Pairwise
      (fun a b => keyLE b a) := by
    rw [List.pairwise_reverse]
    exact List.sorted_insertionSort keyLE _
  have hmemu : (du, u) ∈ ((d1.map (fun p => (p.2, p.1))).insertionSort keyLE).reverse := by
    rw [List.mem_reverse, (List.perm_insertionSort keyLE _).mem_iff]
    exact List.mem_map_of_mem _ (dictGet_mem d1 u du hu)
  have hmemv : (dv, v) ∈ ((d1.map (fun p => (p.2, p.1))).insertionSort keyLE).reverse := by
    rw [List.mem_reverse, (List.perm_insertionSort keyLE _).mem_iff]
    exact List.mem_map_of_mem _ (dictGet_mem d1 v dv hv)
  obtain ⟨j, hj⟩ := List.mem_iff_get.mp hmemu
  obtain ⟨i, hi⟩ := List.mem_iff_get.mp hmemv
  have hij : i < j := by
    rcases lt_trichotomy i j with h | h | h
    · exact h
    · exfalso
      rw [h, hj] at hi
      injection hi with h1 h2
      omega
    · exfalso
      have hrel := List.pairwise_iff_get.mp hsorted j i h
      rw [hi, hj] at hrel
      rcases hrel with h1 | ⟨h1, _⟩ <;> simp at h1 <;> omega
  have hiu := indexOf_map_snd_get _ hnodup j
  have hiv := indexOf_map_snd_get _ hnodup i
  rw [hj] at hiu
  rw [hi] at hiv
  unfold resolveOrder
  simp only []
  rw [show ((du, u) : Nat × V).2 = u from rfl] at hiu
  rw [show ((dv, v) : Nat × V).2 = v from rfl] at hiv
  rw [hiu, hiv]
  exact_mod_cast hij

/-- C5: for every graph containing a cycle reachable from the start vertex,
`resolve_deps` fails with the cycle-detection error (`DepLoop`, embedded as
`DepErr.loop`) and never returns a result: no partial ordering is
produced. -/
theorem resolve_deps_cycle_detected [LinearOrder V] [Fintype V] (g : V → List V) (start : V)
    (hcyc : ∃ u w, Reach g start u ∧ w ∈ g u ∧ Reach g w u) :
    resolve_deps g start = Except.error DepErr.loop := by
  obtain ⟨u, w, hu, hw, hwu⟩ := hcyc
  unfold resolve_deps
  cases hres : dfsExplore g (Fintype.card V) start [start] [(start, 0)] with
  | error e =>
    cases e with
    | loop => rfl
    | fuel =>
      exact absurd hres (dfsExplore_no_fuel_error g (Fintype.card V) start [start] _
        (List.nodup_singleton start) (by simp))
  | ok d1 =>
    exfalso
    obtain ⟨hstart, hiff, hfull, hnodup⟩ := dfsStart_inv g start d1 hres
    obtain ⟨du, hdu⟩ := Option.isSome_iff_exists.mp ((hiff u).mpr hu)
    obtain ⟨dw, hdw, hle⟩ := hfull u du hdu w hw
    obtain ⟨du2, hdu2, hle2⟩ := reach_value_le g d1 hfull hwu dw hdw
    rw [hdu] at hdu2
    injection hdu2 with hdu2
    omega

/-- Witness for C5 at a concrete input: the one-vertex graph with a self
loop (`{0: [0]}`), started at `0`. -/
theorem resolve_deps_cycle_detected_witness :
    resolve_deps (fun _ : Fin 1 => [0]) 0 = Except.error DepErr.loop :=
  resolve_deps_cycle_detected (fun _ : Fin 1 => [0]) 0
    ⟨0, 0, Reach.refl 0, List.mem_singleton_self 0, Reach.refl 0⟩

/-- C4: for every acyclic adjacency map and start vertex, `resolve_deps`
returns a list that contains every vertex reachable from `start` exactly
once (and nothing else), and for every explored edge `u → v` (an edge of a
reachable vertex `u`), `v` appears strictly before `u` in the returned
list. -/
theorem resolve_deps_acyclic_topo_order [LinearOrder V] [Fintype V]
    (g : V → List V) (start : V) (hacyc : Acyclic g) :
    ∃ out, resolve_deps g start = Except.ok out ∧ out.Nodup ∧
      (∀ v, v ∈ out ↔ Reach g start v) ∧
      (∀ v, Reach g start v → out.count v = 1) ∧
      (∀ u v, Reach g start u → v ∈ g u → out.indexOf v < out.indexOf u) := by
  unfold resolve_deps
  cases hres : dfsExplore g (Fintype.card V) start [start] [(start, 0)] with
  | error e =>
    exfalso
    cases e with
    | loop =>
      obtain ⟨a, b, hb, hr⟩ := dfsExplore_loop_cycle g (Fintype.card V) start [start] _
        (List.chain'_singleton start) (by simp) hres
      exact hacyc a b hb hr
    | fuel =>
      exact dfsExplore_no_fuel_error g (Fintype.card V) start [start] _
        (List.nodup_singleton start) (by simp) hres
  | ok d1 =>
    obtain ⟨hstart, hiff, hfull, hnodupkeys⟩ := dfsStart_inv g start d1 hres
    refine ⟨resolveOrder d1, rfl, resolveOrder_nodup d1 hnodupkeys, ?_, ?_, ?_⟩
    · intro v
      rw [resolveOrder_mem]
      exact hiff v
    · intro v hv
      exact List.count_eq_one_of_mem (resolveOrder_nodup d1 hnodupkeys)
        ((resolveOrder_mem d1 v).mpr ((hiff v).mpr hv))
    · intro u v hu hv
      obtain ⟨du, hdu⟩ := Option.isSome_iff_exists.mp ((hiff u).mpr hu)
      obtain ⟨dv, hdv, hle⟩ := hfull u du hdu v hv
      exact resolveOrder_index_lt d1 hnodupkeys hdu hdv (by omega)

/-- Witness for C4 at a concrete input: the edgeless one-vertex graph,
which is acyclic; the resolved order lists exactly the start vertex. -/
theorem resolve_deps_acyclic_topo_order_witness :
    ∃ out, resolve_deps (fun _ : Fin 1 => []) 0 = Except.ok out ∧ out.Nodup ∧
      (∀ v, v ∈ out ↔ Reach (fun _ : Fin 1 => []) 0 v) ∧
      (∀ v, Reach (fun _ : Fin 1 => []) 0 v → out.count v = 1) ∧
      (∀ u v, Reach (fun _ : Fin 1 => []) 0 u → v ∈ (fun _ : Fin 1 => ([] : List (Fin 1))) u →
        out.indexOf v < out.indexOf u) :=
  resolve_deps_acyclic_topo_order (fun _ : Fin 1 => []) 0
    (fun _ w hw => absurd hw (List.not_mem_nil w))

/- Sanity checks reproducing `tests/test_depgraph.py` on the embedding. -/

theorem resolve_deps_test_simple :
    resolve_deps (fun v : Fin 3 => if v = 0 then [1, 2] else []) 0 = Except.ok [2, 1, 0] := by
  decide

theorem resolve_deps_test_chain :
    resolve_deps (fun v : Fin 4 =>
      if v = 0 then [1, 3] else if v = 1 then [2] else if v = 2 then [3] else []) 0 =
      Except.ok [3, 2, 1, 0] := by
  decide

theorem resolve_deps_test_loop :
    resolve_deps (fun v : Fin 4 =>
      if v = 0 then [1, 3] else if v = 1 then [2] else if v = 2 then [3] else [1]) 0 =
      Except.error DepErr.loop := by
  decide

theorem resolve_deps_test_diamond :
    resolve_deps (fun v : Fin 5 =>
      if v = 0 then [1, 4] else if v = 2 then [1] else if v = 3 then [2]
      else if v = 4 then [3] else []) 0 = Except.ok [1, 2, 3, 4, 0] := by
  decide

/-!
Part 2 embeds the build orchestration core: `JobControl.create_build`,
`JobControl._run_build` and `JobControlLogHandler.emit` from
`src/jobcontrol/core.py`, `prepare_args` from `src/jobcontrol/job_conf.py`,
and the storage operations they call (`src/jobcontrol/ext/memory.py`,
`src/jobcontrol/interfaces.py`).

Python values appearing in job args/kwargs are embedded as `PyVal`;
exceptions as `PyErr` results in `Except`.  Time (`datetime.now()`) is
embedded as a `clock : Nat` counter in the storage state.  Job functions
are external collaborators (resolved by `import_object`), embedded as a
`Registry` parameter mapping the function reference to an abstract
behaviour (`FnOutcome`).

The snapshot under `src/` is internally inconsistent at two storage
boundaries, and the embedding mirrors both call sites exactly:

* `JobControl.create_build` (core.py:158) calls
  `storage.create_build(job_id=..., job_config=..., build_config=...)`,
  but both `MemoryStorage.create_build` (ext/memory.py:161) and
  `PostgreSQLStorage.create_build` (ext/postgresql.py:463) accept only
  `job_id`, so the call raises `TypeError` — even though
  `interfaces.py:14-17` documents `job_config` as "Copy of the job
  configuration whan the build was started" and the PostgreSQL schema has
  both columns.  `jc_create_build_mem` embeds the actual call (the
  `TypeError`); `jc_create_build` embeds the documented storage contract
  (a build record storing the snapshot), against which the orchestration
  logic above the storage boundary is verified.

* `_run_build`'s failure branch (core.py:242-244) calls
  `finish_build(..., exc_info=sys.exc_info())`.  `StorageBase.finish_build`
  (interfaces.py:345-346) and PostgreSQL (postgresql.py:482-483) declare
  `exc_info`; `MemoryStorage.finish_build` (ext/memory.py:198) does not,
  so with the memory storage that call raises `TypeError`.
  `jc_run_build` embeds the conforming behaviour, `jc_run_build_mem` the
  memory-storage behaviour; both share every other definition.
-/

/-- Python values that can appear in job args/kwargs: the `!retval <n>`
placeholder (`Retval`, job_conf.py:70-88), lists, tuples, dicts, and the
scalars `prepare_args` accepts (job_conf.py:148); `none` stands for any
value outside those types (e.g. Python `None`), which `prepare_args`
rejects with `TypeError` (job_conf.py:151). -/
inductive PyVal where
  | none
  | bool (b : Bool)
  | int (n : Int)
  | str (s : String)
  | retval (job_id : String)
  | list (xs : List PyVal)
  | tuple (xs : List PyVal)
  | dict (kvs : List (PyVal × PyVal))

/-- Python exceptions raised by the embedded code paths. -/
inductive PyErr where
  | notFound (msg : String)
  | missingDependencies (msg : String)
  | skipBuild
  | valueError (msg : String)
  | typeError (msg : String)
  | keyError (key : String)
  | runtimeError (msg : String)
  | assertionError (msg : String)

/-- Job configuration after `JobInfo.__init__` merges the defaults
`{args: (), kwargs: {}, function: None, dependencies: []}` (core.py:462-471)
into the raw config dict. -/
structure JobConfig where
  id : String
  function : Option String
  args : List PyVal
  kwargs : List (String × PyVal)
  dependencies : List String

/-- The build_config dict assembled by `JobControl.create_build`
(core.py:138-142): `build_deps`, `build_revdeps` and the
`dependency_builds` pin map `job_id → build_id` (core.py:155). -/
structure BuildConfigRec where
  build_deps : Bool
  build_revdeps : Bool
  dependency_builds : List (String × Nat)

/-- A stored build record.  Fields follow the `MemoryStorage` build dict
(ext/memory.py:164-177) plus the `job_config`/`build_config`/`exception_tb`
columns the data model documents (interfaces.py:6-22) and PostgreSQL's
schema has (postgresql.py:81-95).  `job_config`/`build_config` are
`Option`s: `none` models a record whose storage (e.g. `MemoryStorage`)
stored no such key, so reading it raises `KeyError`. -/
structure StBuild where
  id : Nat
  job_id : String
  start_time : Option Nat
  end_time : Option Nat
  started : Bool
  finished : Bool
  success : Bool
  skipped : Bool
  progress_current : Nat
  progress_total : Nat
  job_config : Option JobConfig
  build_config : Option BuildConfigRec
  retval : PyVal
  exception : Option PyErr
  exception_tb : Option PyErr

/-- A captured log record (only the fields the claims need). -/
structure LogRec where
  levelno : Int
  msg : String
deriving DecidableEq

/-- Storage state: the builds table with its id sequence (memory.py:29-33),
stored log messages, and a clock standing for `datetime.now()`. -/
structure Storage where
  builds : List StBuild
  buildsSeq : Nat
  logs : List (Nat × LogRec)
  clock : Nat

/-- Ordering of builds by id, used by `get_job_builds`
(ext/memory.py:136-141 sorts by `y[1]['id']`). -/
def buildIdLE (a b : StBuild) : Prop := a.id ≤ b.id

instance : DecidableRel buildIdLE := fun a b => Nat.decLe a.id b.id

/-- Embeds `MemoryStorage.get_job_builds` (ext/memory.py:119-155): filter
by job id and the four optional boolean flags, order by build id ascending
or descending (`ValueError` otherwise), and stop after `limit` yields. -/
def Storage.get_job_builds (st : Storage) (job_id : String)
    (started finished success skipped : Option Bool) (order : String)
    (limit : Option Nat) : Except PyErr (List StBuild) :=
  let pred : StBuild → Bool := fun b =>
    b.job_id == job_id &&
    (match started with | .none => true | .some x => b.started == x) &&
    (match finished with | .none => true | .some x => b.finished == x) &&
    (match success with | .none => true | .some x => b.success == x) &&
    (match skipped with | .none => true | .some x => b.skipped == x)
  let sorted := st.builds.insertionSort buildIdLE
  let ordered : Except PyErr (List StBuild) :=
    if order = "asc" then .ok sorted
    else if order = "desc" then .ok sorted.reverse
    else .error (.valueError ("Invalid order direction: " ++ order))
  match ordered with
  | .error e => .error e
  | .ok l =>
    let filtered := l.filter pred
    .ok (match limit with | .none => filtered | .some n => filtered.take n)

/-- Embeds `StorageBase.get_latest_successful_build` (interfaces.py:373-386):
`get_job_builds(job_id, started=True, finished=True, success=True,
skipped=False, order='desc', limit=1)`; `None` when there is none, and the
`assert len(builds) == 1` is an `AssertionError` branch (unreachable with
`limit=1`). -/
def Storage.get_latest_successful_build (st : Storage) (job_id : String) :
    Except PyErr (Option StBuild) :=
  match st.get_job_builds job_id (some true) (some true) (some true) (some false)
      "desc" (some 1) with
  | .error e => .error e
  | .ok [] => .ok none
  | .ok [b] => .ok (some b)
  | .ok (_ :: _ :: _) => .error (.assertionError "len(builds) == 1")

/-- Embeds `MemoryStorage.get_build` (ext/memory.py:181-185): the stored
record, or `NotFound`. -/
def Storage.get_build (st : Storage) (build_id : Nat) : Except PyErr StBuild :=
  match st.builds.find? (fun b => b.id == build_id) with
  | some b => .ok b
  | none => .error (.notFound "No such build")

/-- Embeds `MemoryStorage.start_build` (ext/memory.py:191-196): set
`started` and `start_time`, or `NotFound`. -/
def Storage.start_build (st : Storage) (build_id : Nat) : Except PyErr Storage :=
  if st.builds.any (fun b => b.id == build_id) then
    .ok { st with
      builds := st.builds.map (fun b =>
        if b.id == build_id then { b with started := true, start_time := some st.clock }
        else b),
      clock := st.clock + 1 }
  else .error (.notFound "No such build")

/-- Embeds `finish_build` with the interface-conforming signature
(interfaces.py:345-350; field updates as in ext/memory.py:198-208, the
`exc_info`-derived traceback column as in postgresql.py:482-497): set
`finished`, `end_time` and the outcome fields. -/
def Storage.finish_build (st : Storage) (build_id : Nat) (success skipped : Bool)
    (retval : PyVal) (exception : Option PyErr) (exc_info : Option PyErr) :
    Except PyErr Storage :=
  if st.builds.any (fun b => b.id == build_id) then
    .ok { st with
      builds := st.builds.map (fun b =>
        if b.id == build_id then
          { b with
            finished := true
            end_time := some st.clock
            success := success
            skipped := skipped
            retval := retval
            exception := exception
            exception_tb := exc_info }
        else b),
      clock := st.clock + 1 }
  else .error (.notFound "No such build")

/-- Embeds build creation as the storage contract documents it
(interfaces.py:6-22: a new record with `started=finished=false` and the
`job_config` snapshot / `build_config` pin map; id from the sequence,
memory.py:163).  The storage implementations actually in `src/` do NOT
accept these arguments — see `jc_create_build_mem`. -/
def Storage.create_build (st : Storage) (job_id : String) (job_config : JobConfig)
    (build_config : BuildConfigRec) : Storage × Nat :=
  let build_id := st.buildsSeq
  ({ st with
    builds := st.builds ++ [{
      id := build_id, job_id := job_id, start_time := none, end_time := none,
      started := false, finished := false, success := false, skipped := false,
      progress_current := 0, progress_total := 0,
      job_config := some job_config, build_config := some build_config,
      retval := .none, exception := none, exception_tb := none }],
    buildsSeq := st.buildsSeq + 1 }, build_id)

/-- Embeds `JobControlConfigMgr.get_job` (job_conf.py:225-229): first job
with the id, `NotFound` otherwise (`JobControl.get_job`, core.py:82-95,
adds nothing observable). -/
def jc_get_job (jobs : List JobConfig) (job_id : String) : Except PyErr JobConfig :=
  match jobs.find? (fun j => j.id == job_id) with
  | some j => .ok j
  | none => .error (.notFound ("Job not found: " ++ job_id))

/-- Behaviour of an invoked job function: return a value, raise the
`SkipBuild` signal, or raise any other exception. -/
inductive FnOutcome where
  | ret (v : PyVal)
  | skipSignal
  | raise (e : PyErr)

/-- The external function registry (`import_object`, utils/__init__.py:53-67):
maps a function reference string to the invocable behaviour, or fails as
the import machinery would. -/
def Registry : Type := String → Except PyErr (PyVal → PyVal → FnOutcome)

/-- Embeds `JobControl._get_runner_function` (core.py:301-306): `TypeError`
for a non-string name (the merged config default is `None`), `ValueError`
for the empty string, otherwise resolve through the external registry. -/
def get_runner_function (registry : Registry) (name : Option String) :
    Except PyErr (PyVal → PyVal → FnOutcome) :=
  match name with
  | none => .error (.typeError "Function name must be a string")
  | some s =>
    if s = "" then .error (.valueError "Cannot get function for empty name!")
    else registry s

mutual
/-- Embeds `prepare_args(args, build)` (job_conf.py:117-151) together with
its list/tuple/dict companions.  The `Retval` branch reads the CURRENT job
configuration via the execution context (`execution_context.current_job`,
i.e. `get_job(ctx_job_id)`), checks the declared dependencies, and
substitutes the retval of the dependency's LATEST successful build
(`dep_job.get_latest_successful_build()`, job_conf.py:132) — the `build`
parameter, and with it the `dependency_builds` pin map, is never consulted
(the source's own comment at job_conf.py:123: `todo: important! we want to
use return values from the *pinned* builds!`). -/
def prepare_args (jobs : List JobConfig) (stor : Storage) (ctx_job_id : String) :
    PyVal → StBuild → Except PyErr PyVal
  | .retval dep_id, _ => do
    let current_job ← jc_get_job jobs ctx_job_id
    if dep_id ∈ current_job.dependencies then do
      let dep_job ← jc_get_job jobs dep_id
      match ← Storage.get_latest_successful_build stor dep_job.id with
      | none => throw (.valueError ("Job " ++ dep_id ++ " has no successful builds"))
      | some b => pure b.retval
    else
      throw (.valueError ("job " ++ dep_id ++ " is not a dependency of job " ++ ctx_job_id))
  | .list xs, build => do pure (.list (← prepare_args_list jobs stor ctx_job_id xs build))
  | .tuple xs, build => do pure (.tuple (← prepare_args_list jobs stor ctx_job_id xs build))
  | .dict kvs, build => do pure (.dict (← prepare_args_pairs jobs stor ctx_job_id kvs build))
  | .str s, _ => pure (.str s)
  | .int n, _ => pure (.int n)
  | .bool b, _ => pure (.bool b)
  | .none, _ => throw (.typeError "Unsupported type: NoneType")

def prepare_args_list (jobs : List JobConfig) (stor : Storage) (ctx_job_id : String) :
    List PyVal → StBuild → Except PyErr (List PyVal)
  | [], _ => pure []
  | x :: xs, build => do
    pure ((← prepare_args jobs stor ctx_job_id x build) ::
      (← prepare_args_list jobs stor ctx_job_id xs build))

def prepare_args_pairs (jobs : List JobConfig) (stor : Storage) (ctx_job_id : String) :
    List (PyVal × PyVal) → StBuild → Except PyErr (List (PyVal × PyVal))
  | [], _ => pure []
  | (k, v) :: xs, build => do
    pure ((← prepare_args jobs stor ctx_job_id k build,
        ← prepare_args jobs stor ctx_job_id v build) ::
      (← prepare_args_pairs jobs stor ctx_job_id xs build))
end

/-- Execution-context frame (`JobExecutionContext`, core.py:355-376): the
running app is implicit, a frame carries `job_id` and `build_id`. -/
structure CtxFrame where
  job_id : String
  build_id : Nat
deriving DecidableEq

/-- Embeds `JobExecutionContext.pop` (core.py:382-386) over the LIFO stack.
Modelled from the spec: the underlying `LocalStack` lives in
`jobcontrol/utils/local.py`, which is not among the repository's files;
spec section 4.3 specifies it (`push()` appends a frame; `pop()` removes
the top frame), and the head of the embedded list is the stack top.  The
`assert rv is self` of core.py:385-386 becomes an `AssertionError` result
when the popped frame differs (or the stack is empty). -/
def ctx_pop (frame : CtxFrame) (stack : List CtxFrame) :
    Except PyErr Unit × List CtxFrame :=
  match stack with
  | [] => (.error (.assertionError "Popped wrong context"), [])
  | top :: rest =>
    if top = frame then (.ok (), rest)
    else (.error (.assertionError "Popped wrong context"), rest)

/-- Embeds `BuildInfo.job_config` (core.py:787-792): reading
`info['job_config']` raises `KeyError` when the stored record has no such
key (as `MemoryStorage` records do not, ext/memory.py:164-177). -/
def build_job_config (b : StBuild) : Except PyErr JobConfig :=
  match b.job_config with
  | some c => .ok c
  | none => .error (.keyError "job_config")

/-- Orchestrator state: the job configurations (read-only to the core),
the storage, and the execution-context stack. -/
structure JCState where
  jobs : List JobConfig
  storage : Storage
  ctxStack : List CtxFrame

/-- The `try:` block of `_run_build` (core.py:218-229): resolve the
function from the SNAPSHOT config (`build.job_config['function']`),
prepare args then kwargs, and invoke.  Exceptions escape to the caller's
`except` clauses. -/
def jc_try_block (registry : Registry) (jobs : List JobConfig) (stor : Storage)
    (b : StBuild) : Except PyErr PyVal :=
  match build_job_config b with
  | .error e => .error e
  | .ok cfg =>
    match get_runner_function registry cfg.function with
    | .error e => .error e
    | .ok fn =>
      match prepare_args jobs stor b.job_id (.list cfg.args) b with
      | .error e => .error e
      | .ok args =>
        match prepare_args jobs stor b.job_id
            (.dict (cfg.kwargs.map fun kv => (.str kv.1, kv.2))) b with
        | .error e => .error e
        | .ok kwargs =>
          match fn args kwargs with
          | .ret v => .ok v
          | .skipSignal => .error .skipBuild
          | .raise e => .error e

/-- Embeds `JobControl._run_build` (core.py:198-255) with `run_build`'s
preceding `build.refresh()` (core.py:170-196), parameterized over the
failure branch's `finish_build(..., exc_info=...)` call, on which the two
storage backends in `src/` differ: mark started, push the context, run the
try block, dispatch to `finish_build` per outcome (skip / failure /
success), and pop the context in the `finally:` block on every path. -/
def jc_run_build_with
    (finishFailed : Storage → Nat → PyErr → Except PyErr Storage)
    (registry : Registry) (st : JCState) (build_id : Nat) :
    Except PyErr Unit × JCState :=
  match Storage.get_build st.storage build_id with
  | .error e => (.error e, st)
  | .ok b =>
    match Storage.start_build st.storage build_id with
    | .error e => (.error e, st)
    | .ok stor1 =>
      let frame : CtxFrame := { job_id := b.job_id, build_id := build_id }
      let stack1 := frame :: st.ctxStack
      let tryRes := jc_try_block registry st.jobs stor1 b
      let branch : Except PyErr Unit × Storage :=
        match tryRes with
        | .error .skipBuild =>
          match Storage.finish_build stor1 build_id true true .none none none with
          | .ok s => (.ok (), s)
          | .error e2 => (.error e2, stor1)
        | .error e =>
          match finishFailed stor1 build_id e with
          | .ok s => (.ok (), s)
          | .error e2 => (.error e2, stor1)
        | .ok v =>
          match Storage.finish_build stor1 build_id true false v none none with
          | .ok s => (.ok (), s)
          | .error e2 => (.error e2, stor1)
      let popped := ctx_pop frame stack1
      (match popped.1 with
       | .error e3 => .error e3
       | .ok _ => branch.1,
       { st with storage := branch.2, ctxStack := popped.2 })

/-- The failure branch of `_run_build` against a conforming storage
(core.py:242-244 with interfaces.py:345-346 / postgresql.py:482-483):
`finish_build(build_id, success=False, skipped=False, retval=None,
exception=exc, exc_info=sys.exc_info())`. -/
def finish_build_failed (stor : Storage) (build_id : Nat) (e : PyErr) :
    Except PyErr Storage :=
  Storage.finish_build stor build_id false false .none (some e) (some e)

/-- The same call against `MemoryStorage.finish_build` (ext/memory.py:198),
whose signature has no `exc_info` parameter: Python raises `TypeError`
before the storage mutates anything. -/
def finish_build_failed_memcall (_stor : Storage) (_build_id : Nat) (_e : PyErr) :
    Except PyErr Storage :=
  .error (.typeError "finish_build() got an unexpected keyword argument 'exc_info'")

/-- `run_build` composed with an interface-conforming storage. -/
def jc_run_build (registry : Registry) (st : JCState) (build_id : Nat) :
    Except PyErr Unit × JCState :=
  jc_run_build_with finish_build_failed registry st build_id

/-- `run_build` composed with `MemoryStorage` exactly as in `src/`. -/
def jc_run_build_mem (registry : Registry) (st : JCState) (build_id : Nat) :
    Except PyErr Unit × JCState :=
  jc_run_build_with finish_build_failed_memcall registry st build_id

/-- The dependency loop of `JobControl.create_build` (core.py:147-155):
for each declared dependency fetch its `JobInfo` (`NotFound` if the job id
is unknown) and its latest successful build; `MissingDependencies` when
there is none (the message is the source's literal — core.py:152-153 never
calls `.format` on it); otherwise pin `dep.id → build.id`. -/
def jc_collect_pins (jobs : List JobConfig) (stor : Storage) :
    List String → Except PyErr (List (String × Nat))
  | [] => .ok []
  | dep :: rest =>
    match jc_get_job jobs dep with
    | .error e => .error e
    | .ok dep_job =>
      match Storage.get_latest_successful_build stor dep_job.id with
      | .error e => .error e
      | .ok none =>
        .error (.missingDependencies "Dependency job {0!r} has no successful builds!")
      | .ok (some b) =>
        match jc_collect_pins jobs stor rest with
        | .error e => .error e
        | .ok pins => .ok ((dep, b.id) :: pins)

/-- Embeds `JobControl.create_build` (core.py:120-161) over the documented
storage contract: check/pin all dependencies, create the build record
with the `job_config` snapshot and `build_config`, and return its id
(after a `get_build` refresh, core.py:116-118). -/
def jc_create_build (st : JCState) (job_id : String) : Except PyErr (JCState × Nat) :=
  match jc_get_job st.jobs job_id with
  | .error e => .error e
  | .ok job =>
    match jc_collect_pins st.jobs st.storage job.dependencies with
    | .error e => .error e
    | .ok pins =>
      let created := Storage.create_build st.storage job_id job
        { build_deps := false, build_revdeps := false, dependency_builds := pins }
      match Storage.get_build created.1 created.2 with
      | .error e => .error e
      | .ok _ => .ok ({ st with storage := created.1 }, created.2)

/-- Embeds `JobControl.create_build` composed with the storages actually
in `src/`: after the dependency loop, the call
`storage.create_build(job_id=..., job_config=..., build_config=...)`
(core.py:158-159) does not match `MemoryStorage.create_build(self, job_id)`
(ext/memory.py:161) nor `PostgreSQLStorage.create_build(self, job_id)`
(postgresql.py:463), so Python raises `TypeError` and no build is ever
stored. -/
def jc_create_build_mem (st : JCState) (job_id : String) :
    Except PyErr (JCState × Nat) :=
  match jc_get_job st.jobs job_id with
  | .error e => .error e
  | .ok job =>
    match jc_collect_pins st.jobs st.storage job.dependencies with
    | .error e => .error e
    | .ok _pins =>
      .error (.typeError "create_build() got an unexpected keyword argument 'job_config'")

/-- Embeds `JobControlLogHandler.emit` (core.py:430-456): with no active
execution context (or a `None` build id) the `RuntimeError` raised inside
the `try:` is swallowed by the bare `except:` and the record is discarded;
with an active context the handler proceeds to
`storage.log_message(build_id=..., record=...)`, a call that omits the
`job_id` argument `StorageBase.log_message` (interfaces.py:389) and
`MemoryStorage.log_message` (ext/memory.py:216) require, so it raises
`TypeError` outside the `try:`. -/
def jc_emit (st : JCState) (_record : LogRec) : Except PyErr Unit × JCState :=
  match st.ctxStack with
  | [] => (.ok (), st)
  | _ :: _ =>
    (.error (.typeError "log_message() missing 1 required argument: job_id"), st)

/-- C9: on every execution path of `_run_build` — normal return, skip
signal, any other exception, failures in function resolution or argument
preparation, and even a failing `finish_build` call — the context frame
pushed for the build is popped before returning, restoring the stack to
its state before the call (first conjunct, for every storage behaviour of
the failure branch, covering both `jc_run_build` and `jc_run_build_mem`);
and popping the frame that was pushed satisfies `pop`'s assertion and
yields the prior stack (second conjunct, the LIFO discipline of
`JobExecutionContext.pop`). -/
theorem run_build_ctx_stack_lifo :
    (∀ (ff : Storage → Nat → PyErr → Except PyErr Storage) (registry : Registry)
      (st : JCState) (build_id : Nat),
      (jc_run_build_with ff registry st build_id).2.ctxStack = st.ctxStack) ∧
    (∀ (frame : CtxFrame) (stack : List CtxFrame),
      ctx_pop frame (frame :: stack) = (Except.ok (), stack)) := by
  constructor
  · intro ff registry st build_id
    unfold jc_run_build_with
    cases Storage.get_build st.storage build_id with
    | error e => rfl
    | ok b =>
      cases Storage.start_build st.storage build_id with
      | error e => rfl
      | ok stor1 =>
        simp [ctx_pop]
  · intro frame stack
    simp [ctx_pop]

/-- C10: a log record emitted while the execution-context stack is empty
is discarded: `emit` returns without raising, the whole state — including
the stored log messages — is unchanged, and no storage call is made. -/
theorem emit_without_context_discards (st : JCState) (record : LogRec)
    (h : st.ctxStack = []) :
    jc_emit st record = (Except.ok (), st) ∧
    (jc_emit st record).2.storage.logs = st.storage.logs := by
  unfold jc_emit
  rw [h]
  exact ⟨rfl, rfl⟩

/-- Witness for C10: a concrete state with no active execution context. -/
def exEmptyState : JCState :=
  { jobs := [], storage := { builds := [], buildsSeq := 0, logs := [], clock := 0 },
    ctxStack := [] }

theorem emit_without_context_discards_witness :
    jc_emit exEmptyState { levelno := 10, msg := "hello" } = (Except.ok (), exEmptyState) ∧
    (jc_emit exEmptyState { levelno := 10, msg := "hello" }).2.storage.logs =
      exEmptyState.storage.logs :=
  emit_without_context_discards exEmptyState { levelno := 10, msg := "hello" } rfl

/- Concrete states for the evaluation theorems. -/

/-- Job `d` of the pinning scenario: no dependencies. -/
def exJobD : JobConfig :=
  { id := "d", function := some "mymodule:d", args := [], kwargs := [], dependencies := [] }

/-- Job `x` of the pinning scenario: depends on `d` and passes `!retval d`
as its only positional argument. -/
def exJobX : JobConfig :=
  { id := "x"
    function := some "mymodule:x"
    args := [PyVal.retval "d"]
    kwargs := []
    dependencies := ["d"] }

/-- An old successful build of `d` (id 0, retval `"old"`). -/
def exBuildD0 : StBuild :=
  { id := 0
    job_id := "d"
    start_time := some 0
    end_time := some 1
    started := true
    finished := true
    success := true
    skipped := false
    progress_current := 0
    progress_total := 0
    job_config := some exJobD
    build_config := none
    retval := PyVal.str "old"
    exception := none
    exception_tb := none }

/-- A newer successful build of `d` (id 1, retval `"new"`). -/
def exBuildD1 : StBuild :=
  { id := 1
    job_id := "d"
    start_time := some 2
    end_time := some 3
    started := true
    finished := true
    success := true
    skipped := false
    progress_current := 0
    progress_total := 0
    job_config := some exJobD
    build_config := none
    retval := PyVal.str "new"
    exception := none
    exception_tb := none }

/-- The build of `x` under resolution, created while build 0 was the
latest successful build of `d`: its `build_config.dependency_builds` pins
`d ↦ 0`. -/
def exBuildX : StBuild :=
  { id := 2
    job_id := "x"
    start_time := none
    end_time := none
    started := false
    finished := false
    success := false
    skipped := false
    progress_current := 0
    progress_total := 0
    job_config := some exJobX
    build_config := some { build_deps := false, build_revdeps := false, dependency_builds := [("d", 0)] }
    retval := PyVal.none
    exception := none
    exception_tb := none }

/-- Storage of the pinning scenario. -/
def exStorPin : Storage :=
  { builds := [exBuildD0, exBuildD1, exBuildX], buildsSeq := 3, logs := [], clock := 4 }

/-- C1 evaluation: although build `exBuildX` pins dependency `d` to build
0 (whose retval is `"old"`), `prepare_args` substitutes the retval of the
latest successful build of `d` at execution time (build 1, `"new"`).  The
pin map is never consulted — the code's own comment (job_conf.py:123)
records that using the pinned builds is an unimplemented todo. -/
theorem prepare_args_ignores_pinning :
    prepare_args [exJobD, exJobX] exStorPin "x" (PyVal.retval "d") exBuildX =
      Except.ok (PyVal.str "new") ∧
    exBuildX.build_config = some { build_deps := false, build_revdeps := false, dependency_builds := [("d", 0)] } ∧
    Storage.get_build exStorPin 0 = Except.ok exBuildD0 ∧
    exBuildD0.retval = PyVal.str "old" ∧
    PyVal.str "new" ≠ PyVal.str "old" := by
  refine ⟨rfl, rfl, rfl, rfl, ?_⟩
  intro h
  injection h with h
  exact absurd h (by decide)

/- Concrete states for C6 (create_build against the storages in src/). -/

/-- A dependency-free job. -/
def exJobFoo : JobConfig :=
  { id := "foo", function := some "mymodule:foo", args := [], kwargs := [], dependencies := [] }

def exStateC6 : JCState :=
  { jobs := [exJobFoo]
    storage := { builds := [], buildsSeq := 0, logs := [], clock := 0 }
    ctxStack := [] }

/-- A build record as `MemoryStorage.create_build` would store it
(ext/memory.py:164-177): no `job_config` key at all. -/
def exMemBuild : StBuild :=
  { id := 0
    job_id := "foo"
    start_time := none
    end_time := none
    started := false
    finished := false
    success := false
    skipped := false
    progress_current := 0
    progress_total := 0
    job_config := none
    build_config := none
    retval := PyVal.none
    exception := none
    exception_tb := none }

/-- C6 evaluation at the failing input: `JobControl.create_build`
composed with the storages in `src/` raises `TypeError` (their
`create_build` accepts only `job_id`), so no build is created and no
round-trip is possible; and a record shaped as `MemoryStorage` stores it
has no `job_config` snapshot, so reading one raises `KeyError`. -/
theorem create_build_mem_type_error :
    jc_create_build_mem exStateC6 "foo" =
      Except.error (PyErr.typeError
        "create_build() got an unexpected keyword argument 'job_config'") ∧
    build_job_config exMemBuild = Except.error (PyErr.keyError "job_config") :=
  ⟨rfl, rfl⟩

/- Concrete states for C7 (the failure branch of _run_build against
MemoryStorage). -/

/-- A job whose function raises a plain `RuntimeError`. -/
def exJobBoom : JobConfig :=
  { id := "j", function := some "mymodule:boom", args := [], kwargs := [], dependencies := [] }

/-- An unstarted build of that job (its `job_config` snapshot present, as
a conforming storage would hold it, so that execution reaches the job
function; the mismatch under evaluation is `finish_build`'s). -/
def exBuildBoom : StBuild :=
  { id := 0
    job_id := "j"
    start_time := none
    end_time := none
    started := false
    finished := false
    success := false
    skipped := false
    progress_current := 0
    progress_total := 0
    job_config := some exJobBoom
    build_config := some { build_deps := false, build_revdeps := false, dependency_builds := [] }
    retval := PyVal.none
    exception := none
    exception_tb := none }

def exStateC7 : JCState :=
  { jobs := [exJobBoom]
    storage := { builds := [exBuildBoom], buildsSeq := 1, logs := [], clock := 0 }
    ctxStack := [] }

/-- A registry resolving every reference to a function that raises
`RuntimeError` (like `testing_job(fail=True)`). -/
def exRegBoom : Registry :=
  fun _ => .ok (fun _ _ => .raise (.runtimeError "This is a simulated exception"))

/-- C7 evaluation at the failing input: with `MemoryStorage`, when the job
function raises a non-skip exception, `_run_build`'s failure branch calls
`finish_build(..., exc_info=...)`, which `MemoryStorage.finish_build`
rejects with `TypeError`; the `TypeError` propagates to the caller and the
build is left started but never finished, with no exception attached —
instead of the claimed recorded failure with a normal return. -/
theorem run_build_mem_failure_type_error :
    (jc_run_build_mem exRegBoom exStateC7 0).1 =
      Except.error (PyErr.typeError
        "finish_build() got an unexpected keyword argument 'exc_info'") ∧
    ∃ b, Storage.get_build (jc_run_build_mem exRegBoom exStateC7 0).2.storage 0 =
        Except.ok b ∧
      b.started = true ∧ b.finished = false ∧ b.exception = none := by
  exact ⟨rfl, ⟨_, rfl, rfl, rfl, rfl⟩⟩

/- Concrete states for C2 (retval placeholder referencing a job that is
not a declared dependency). -/

/-- Job `x` with a `!retval d` argument but WITHOUT `d` among its
declared dependencies. -/
def exJobXBad : JobConfig :=
  { id := "x"
    function := some "mymodule:x"
    args := [PyVal.retval "d"]
    kwargs := []
    dependencies := [] }

/-- An unstarted build of `exJobXBad` with its config snapshot. -/
def exBuildXBad : StBuild :=
  { id := 0
    job_id := "x"
    start_time := none
    end_time := none
    started := false
    finished := false
    success := false
    skipped := false
    progress_current := 0
    progress_total := 0
    job_config := some exJobXBad
    build_config := some { build_deps := false, build_revdeps := false, dependency_builds := [] }
    retval := PyVal.none
    exception := none
    exception_tb := none }

def exStateC2 : JCState :=
  { jobs := [exJobD, exJobXBad]
    storage := { builds := [exBuildXBad], buildsSeq := 1, logs := [], clock := 0 }
    ctxStack := [] }

/-- A registry resolving every reference to a function returning `None`. -/
def exRegRet : Registry := fun _ => .ok (fun _ _ => .ret PyVal.none)

/-- C2 counterexample: running a build whose args reference a job not in
the declared dependencies does NOT propagate the argument-resolution error
to the caller (`run_build` returns normally), and the build IS marked
started: `start_build` runs before argument preparation (core.py:207 vs
core.py:222), and the `ValueError` is caught by the `except Exception`
branch and recorded on the build. -/
theorem run_build_invalid_ref_counterexample :
    (jc_run_build exRegRet exStateC2 0).1 = Except.ok () ∧
    ∃ b, Storage.get_build (jc_run_build exRegRet exStateC2 0).2.storage 0 =
        Except.ok b ∧
      b.started = true ∧ b.finished = true ∧ b.success = false ∧ b.skipped = false ∧
      b.exception = some (PyErr.valueError "job d is not a dependency of job x") := by
  exact ⟨rfl, ⟨_, rfl, rfl, rfl, rfl, rfl, rfl⟩⟩

/- Helper lemmas about the storage operations, shared by the theorems
below. -/

/-- The per-record update `start_build` applies (ext/memory.py:193-196). -/
def startUpdate (clock bid : Nat) (b : StBuild) : StBuild :=
  if b.id == bid then { b with started := true, start_time := some clock } else b

/-- The per-record update `finish_build` applies (ext/memory.py:200-208,
postgresql.py:490-497). -/
def finishUpdate (clock bid : Nat) (success skipped : Bool) (retval : PyVal)
    (exc exc_info : Option PyErr) (b : StBuild) : StBuild :=
  if b.id == bid then
    { b with
      finished := true
      end_time := some clock
      success := success
      skipped := skipped
      retval := retval
      exception := exc
      exception_tb := exc_info }
  else b

theorem startUpdate_id (clock bid : Nat) (b : StBuild) :
    (startUpdate clock bid b).id = b.id := by
  unfold startUpdate
  by_cases h : (b.id == bid) = true
  · rw [if_pos h]
  · rw [if_neg h]

theorem finishUpdate_id (clock bid : Nat) (success skipped : Bool) (retval : PyVal)
    (exc exc_info : Option PyErr) (b : StBuild) :
    (finishUpdate clock bid success skipped retval exc exc_info b).id = b.id := by
  unfold finishUpdate
  by_cases h : (b.id == bid) = true
  · rw [if_pos h]
  · rw [if_neg h]

theorem startUpdate_pos (clock bid : Nat) (b : StBuild) (h : (b.id == bid) = true) :
    startUpdate clock bid b = { b with started := true, start_time := some clock } := by
  unfold startUpdate
  rw [if_pos h]

theorem finishUpdate_pos (clock bid : Nat) (success skipped : Bool) (retval : PyVal)
    (exc exc_info : Option PyErr) (b : StBuild) (h : (b.id == bid) = true) :
    finishUpdate clock bid success skipped retval exc exc_info b =
      { b with
        finished := true
        end_time := some clock
        success := success
        skipped := skipped
        retval := retval
        exception := exc
        exception_tb := exc_info } := by
  unfold finishUpdate
  rw [if_pos h]

/-- What `start_build` does when it succeeds: every record with the id is
marked started, the clock ticks, and some record with the id exists. -/
theorem start_build_ok_spec {st : Storage} {bid : Nat} {stor1 : Storage}
    (h : Storage.start_build st bid = Except.ok stor1) :
    stor1.builds = st.builds.map (startUpdate st.clock bid) ∧
    stor1.clock = st.clock + 1 ∧
    ∃ b0, st.builds.find? (fun b => b.id == bid) = some b0 := by
  unfold Storage.start_build at h
  by_cases hany : st.builds.any (fun b => b.id == bid) = true
  · rw [if_pos hany] at h
    injection h with h
    subst h
    refine ⟨rfl, rfl, ?_⟩
    obtain ⟨b0, hmem, hb0⟩ := List.any_eq_true.mp hany
    have hsome : (st.builds.find? (fun b => b.id == bid)).isSome = true := by
      rw [List.find?_isSome]
      exact ⟨b0, hmem, hb0⟩
    obtain ⟨b1, hb1⟩ := Option.isSome_iff_exists.mp hsome
    exact ⟨b1, hb1⟩
  · rw [if_neg hany] at h
    cases h

/-- What `finish_build` does when some record with the id exists. -/
theorem finish_build_ok_spec {st : Storage} {bid : Nat}
    (hany : st.builds.any (fun b => b.id == bid) = true)
    (success skipped : Bool) (retval : PyVal) (exc exc_info : Option PyErr) :
    Storage.finish_build st bid success skipped retval exc exc_info =
      Except.ok { st with
        builds := st.builds.map (finishUpdate st.clock bid success skipped retval exc exc_info)
        clock := st.clock + 1 } := by
  unfold Storage.finish_build
  rw [if_pos hany]
  rfl

/-- `find?` by id commutes with mapping an id-preserving update. -/
theorem find_map_pres_id (l : List StBuild) (f : StBuild → StBuild)
    (hf : ∀ b, (f b).id = b.id) (bid : Nat) :
    (l.map f).find? (fun b => b.id == bid) =
      (l.find? (fun b => b.id == bid)).map f := by
  induction l with
  | nil => rfl
  | cons a tl ih =>
    by_cases hpa : (a.id == bid) = true
    · have h1 : ((f a).id == bid) = true := by
        rw [hf a]
        exact hpa
      simp [List.find?_cons, hpa, h1]
    · have h1 : ¬((f a).id == bid) = true := by
        rw [hf a]
        exact hpa
      simp [List.find?_cons, hpa, h1, ih]

/-- `_run_build` when fetching and starting succeed, the try block fails
with a non-skip error, and the failure-branch finish call succeeds: the
whole call returns normally with the finished storage, the context stack
restored. -/
theorem jc_run_build_with_fail_spec
    (ff : Storage → Nat → PyErr → Except PyErr Storage) (registry : Registry)
    (st : JCState) (bid : Nat) (b : StBuild) (stor1 stor2 : Storage) (msg : String)
    (hb : Storage.get_build st.storage bid = Except.ok b)
    (hstart : Storage.start_build st.storage bid = Except.ok stor1)
    (htry : jc_try_block registry st.jobs stor1 b =
      Except.error (PyErr.valueError msg))
    (hff : ff stor1 bid (PyErr.valueError msg) = Except.ok stor2) :
    jc_run_build_with ff registry st bid =
      (Except.ok (), { st with storage := stor2, ctxStack := st.ctxStack }) := by
  unfold jc_run_build_with
  cases hgb : Storage.get_build st.storage bid with
  | error e0 =>
    rw [hb] at hgb
    cases hgb
  | ok b1 =>
    rw [hb] at hgb
    injection hgb with hgb
    subst hgb
    cases hsb : Storage.start_build st.storage bid with
    | error e0 =>
      rw [hstart] at hsb
      cases hsb
    | ok s1 =>
      rw [hstart] at hsb
      injection hsb with hsb
      subst hsb
      simp [ctx_pop, htry, hff]

/-- C2, as the code actually behaves (amended): when the build exists and
its args reference a job that is not a declared dependency, `run_build`
(1) returns normally — the `ValueError` raised by `prepare_args` is caught
by `_run_build`'s `except Exception` clause, not propagated; (2) the build
IS marked started (`start_build` runs at core.py:207, before argument
preparation at core.py:222) and is finished as a failure with the error
recorded on the record; (3) the context stack is restored. -/
theorem run_build_arg_error_recorded
    (registry : Registry) (st : JCState) (bid : Nat) (b : StBuild)
    (stor1 : Storage) (cfg : JobConfig) (fn : PyVal → PyVal → FnOutcome)
    (msg : String)
    (hb : Storage.get_build st.storage bid = Except.ok b)
    (hstart : Storage.start_build st.storage bid = Except.ok stor1)
    (hcfg : build_job_config b = Except.ok cfg)
    (hfn : get_runner_function registry cfg.function = Except.ok fn)
    (hargs : prepare_args st.jobs stor1 b.job_id (PyVal.list cfg.args) b =
      Except.error (PyErr.valueError msg)) :
    (jc_run_build registry st bid).1 = Except.ok () ∧
    (∃ b2, Storage.get_build (jc_run_build registry st bid).2.storage bid =
        Except.ok b2 ∧
      b2.started = true ∧ b2.finished = true ∧ b2.success = false ∧
      b2.skipped = false ∧
      b2.exception = some (PyErr.valueError msg)) ∧
    (jc_run_build registry st bid).2.ctxStack = st.ctxStack := by
  obtain ⟨hb1, hclock, b0, hfind⟩ := start_build_ok_spec hstart
  have hpb0x := List.find?_some hfind
  have hpb0 : (b0.id == bid) = true := hpb0x
  have hmem0 : b0 ∈ st.storage.builds := List.mem_of_find?_eq_some hfind
  have htry : jc_try_block registry st.jobs stor1 b =
      Except.error (PyErr.valueError msg) := by
    simp [jc_try_block, hcfg, hfn, hargs]
  have hany1 : stor1.builds.any (fun x => x.id == bid) = true := by
    rw [hb1]
    apply List.any_eq_true.mpr
    refine ⟨startUpdate st.storage.clock bid b0, List.mem_map_of_mem _ hmem0, ?_⟩
    show ((startUpdate st.storage.clock bid b0).id == bid) = true
    rw [startUpdate_id]
    exact hpb0
  have hfin := finish_build_ok_spec hany1 false false PyVal.none
    (some (PyErr.valueError msg)) (some (PyErr.valueError msg))
  have hrun := jc_run_build_with_fail_spec finish_build_failed registry st bid b
    stor1 _ msg hb hstart htry hfin
  have hrun' : jc_run_build registry st bid =
      (Except.ok (), { st with
        storage := { stor1 with
          builds := stor1.builds.map (finishUpdate stor1.clock bid false false
            PyVal.none (some (PyErr.valueError msg)) (some (PyErr.valueError msg)))
          clock := stor1.clock + 1 }
        ctxStack := st.ctxStack }) := hrun
  refine ⟨by rw [hrun'], ?_, by rw [hrun']⟩
  rw [hrun']
  refine ⟨finishUpdate stor1.clock bid false false PyVal.none
    (some (PyErr.valueError msg)) (some (PyErr.valueError msg))
    (startUpdate st.storage.clock bid b0), ?_, ?_, ?_, ?_, ?_, ?_⟩
  · show Storage.get_build { stor1 with
      builds := stor1.builds.map (finishUpdate stor1.clock bid false false
        PyVal.none (some (PyErr.valueError msg)) (some (PyErr.valueError msg)))
      clock := stor1.clock + 1 } bid = _
    unfold Storage.get_build
    rw [show ({ stor1 with
        builds := stor1.builds.map (finishUpdate stor1.clock bid false false
          PyVal.none (some (PyErr.valueError msg)) (some (PyErr.valueError msg)))
        clock := stor1.clock + 1 } : Storage).builds =
      stor1.builds.map (finishUpdate stor1.clock bid false false
        PyVal.none (some (PyErr.valueError msg)) (some (PyErr.valueError msg))) from rfl]
    rw [hb1]
    rw [find_map_pres_id _ _ (fun x => finishUpdate_id stor1.clock bid false false
      PyVal.none (some (PyErr.valueError msg)) (some (PyErr.valueError msg)) x) bid]
    rw [find_map_pres_id _ _ (fun x => startUpdate_id st.storage.clock bid x) bid]
    rw [hfind]
    rfl
  · rw [finishUpdate_pos _ _ _ _ _ _ _ _ (by rw [startUpdate_id]; exact hpb0),
      startUpdate_pos _ _ _ hpb0]
  · rw [finishUpdate_pos _ _ _ _ _ _ _ _ (by rw [startUpdate_id]; exact hpb0)]
  · rw [finishUpdate_pos _ _ _ _ _ _ _ _ (by rw [startUpdate_id]; exact hpb0)]
  · rw [finishUpdate_pos _ _ _ _ _ _ _ _ (by rw [startUpdate_id]; exact hpb0)]
  · rw [finishUpdate_pos _ _ _ _ _ _ _ _ (by rw [startUpdate_id]; exact hpb0)]

/-- Witness for C2's amended theorem: the concrete invalid-reference
scenario, with all hypotheses discharged by evaluation. -/
theorem run_build_arg_error_recorded_witness :
    (jc_run_build exRegRet exStateC2 0).1 = Except.ok () ∧
    (∃ b2, Storage.get_build (jc_run_build exRegRet exStateC2 0).2.storage 0 =
        Except.ok b2 ∧
      b2.started = true ∧ b2.finished = true ∧ b2.success = false ∧
      b2.skipped = false ∧
      b2.exception = some (PyErr.valueError
        "job d is not a dependency of job x")) ∧
    (jc_run_build exRegRet exStateC2 0).2.ctxStack = exStateC2.ctxStack :=
  run_build_arg_error_recorded exRegRet exStateC2 0 exBuildXBad
    { builds := [{ exBuildXBad with started := true, start_time := some 0 }]
      buildsSeq := 1
      logs := []
      clock := 1 }
    exJobXBad (fun _ _ => FnOutcome.ret PyVal.none)
    "job d is not a dependency of job x" rfl rfl rfl rfl rfl

/- Helper lemmas for the dependency check of `create_build`. -/

/-- The filter `get_latest_successful_build` passes to `get_job_builds`
(interfaces.py:377-379): started, finished, successful, NOT skipped. -/
def predLatest (jid : String) (b : StBuild) : Bool :=
  b.job_id == jid && b.started == true && b.finished == true &&
    b.success == true && b.skipped == false

theorem get_job_builds_desc_eq (stor : Storage) (jid : String) :
    Storage.get_job_builds stor jid (some true) (some true) (some true)
      (some false) "desc" (some 1) =
      Except.ok ((((stor.builds.insertionSort buildIdLE).reverse).filter
        (predLatest jid)).take 1) := rfl

theorem get_latest_eq (stor : Storage) (jid : String) :
    Storage.get_latest_successful_build stor jid =
      Except.ok ((((stor.builds.insertionSort buildIdLE).reverse).filter
        (predLatest jid)).head?) := by
  unfold Storage.get_latest_successful_build
  rw [get_job_builds_desc_eq]
  cases hf : ((stor.builds.insertionSort buildIdLE).reverse).filter (predLatest jid) with
  | nil => rfl
  | cons a tl => rfl

/-- When every started+finished+successful build of job `d` is skipped,
`get_latest_successful_build` — which filters on `skipped=False` —
returns `None`. -/
theorem get_latest_none_of_all_skipped (stor : Storage) (d : String)
    (hall : ∀ b ∈ stor.builds, b.job_id = d → b.started = true → b.finished = true →
      b.success = true → b.skipped = true) :
    Storage.get_latest_successful_build stor d = Except.ok none := by
  rw [get_latest_eq]
  have hfil : ((stor.builds.insertionSort buildIdLE).reverse).filter (predLatest d) = [] := by
    rw [List.filter_eq_nil_iff]
    intro b hbmem
    have hbmem' : b ∈ stor.builds :=
      (List.perm_insertionSort buildIdLE stor.builds).mem_iff.mp
        (List.mem_reverse.mp hbmem)
    intro hpred
    have hpred' : (b.job_id == d && b.started == true && b.finished == true &&
        b.success == true && b.skipped == false) = true := hpred
    simp only [Bool.and_eq_true, beq_iff_eq] at hpred'
    obtain ⟨⟨⟨⟨hjid, hst⟩, hfin⟩, hsuc⟩, hsk⟩ := hpred'
    have hskip := hall b hbmem' hjid hst hfin hsuc
    rw [hskip] at hsk
    cases hsk
  rw [hfil]
  rfl

theorem jc_get_job_id {jobs : List JobConfig} {jid : String} {j : JobConfig}
    (h : jc_get_job jobs jid = Except.ok j) : j.id = jid := by
  unfold jc_get_job at h
  cases hf : jobs.find? (fun jj => jj.id == jid) with
  | none =>
    rw [hf] at h
    cases h
  | some j2 =>
    rw [hf] at h
    injection h with h
    subst h
    have hp := List.find?_some hf
    have hp2 : (j2.id == jid) = true := hp
    exact eq_of_beq hp2

/-- The dependency loop of `create_build` errors with
`MissingDependencies` as soon as some declared dependency (whose job
exists) has no latest successful build. -/
theorem collect_pins_missing (jobs : List JobConfig) (stor : Storage) (d : String) :
    ∀ deps : List String, d ∈ deps →
    (∀ dep ∈ deps, ∃ j, jc_get_job jobs dep = Except.ok j) →
    Storage.get_latest_successful_build stor d = Except.ok none →
    jc_collect_pins jobs stor deps =
      Except.error (PyErr.missingDependencies
        "Dependency job {0!r} has no successful builds!")
  | [], hd, _, _ => absurd hd (List.not_mem_nil d)
  | dep :: rest, hd, hex, hlat => by
    obtain ⟨j, hj⟩ := hex dep (List.mem_cons_self dep rest)
    have hjid : j.id = dep := jc_get_job_id hj
    by_cases hdep : dep = d
    · subst hdep
      have hlat' : Storage.get_latest_successful_build stor j.id = Except.ok none := by
        rw [hjid]
        exact hlat
      simp [jc_collect_pins, hj, hlat']
    · have hdrest : d ∈ rest := by
        rcases List.mem_cons.mp hd with h | h
        · exact absurd h.symm hdep
        · exact h
      have hrec := collect_pins_missing jobs stor d rest hdrest
        (fun dep2 h2 => hex dep2 (List.mem_cons_of_mem dep h2)) hlat
      cases hglb : Storage.get_latest_successful_build stor j.id with
      | error e =>
        rw [get_latest_eq] at hglb
        cases hglb
      | ok o =>
        cases o with
        | none => simp [jc_collect_pins, hj, hglb]
        | some bb => simp [jc_collect_pins, hj, hglb, hrec]

/-- C3, as the code actually behaves (amended): a skipped build does NOT
count as a successful build for dependency satisfaction.  When every
started+finished+successful build of dependency `d` is skipped,
`create_build` of a job declaring `d` fails with `MissingDependencies`:
the check goes through `get_latest_successful_build`, which filters on
`skipped=False` (interfaces.py:377-379), so skip-only jobs never satisfy
it (asserted by test_core.py's `test_build_with_skip`: "Skipped builds
are ignored"). -/
theorem create_build_missing_dep_when_skipped
    (st : JCState) (xid : String) (x : JobConfig) (d : String)
    (hx : jc_get_job st.jobs xid = Except.ok x)
    (hd : d ∈ x.dependencies)
    (hex : ∀ dep ∈ x.dependencies, ∃ j, jc_get_job st.jobs dep = Except.ok j)
    (hall : ∀ b ∈ st.storage.builds, b.job_id = d → b.started = true →
      b.finished = true → b.success = true → b.skipped = true) :
    jc_create_build st xid =
      Except.error (PyErr.missingDependencies
        "Dependency job {0!r} has no successful builds!") := by
  have hpins := collect_pins_missing st.jobs st.storage d x.dependencies hd hex
    (get_latest_none_of_all_skipped st.storage d hall)
  simp [jc_create_build, hx, hpins]

/- Concrete state for C3: job `d` has exactly one build, a skipped
"successful" one; job `x` declares `d` as its dependency. -/

/-- The skipped build of `d`: `finished=true, success=true, skipped=true,
retval=null`, exactly as `_run_build`'s skip branch records it. -/
def exBuildDSkip : StBuild :=
  { id := 0
    job_id := "d"
    start_time := some 0
    end_time := some 1
    started := true
    finished := true
    success := true
    skipped := true
    progress_current := 0
    progress_total := 0
    job_config := some exJobD
    build_config := none
    retval := PyVal.none
    exception := none
    exception_tb := none }

def exStateC3 : JCState :=
  { jobs := [exJobD, exJobX]
    storage := { builds := [exBuildDSkip], buildsSeq := 1, logs := [], clock := 2 }
    ctxStack := [] }

/-- C3 counterexample: `d`'s latest (and only) finished build has
`success=true, skipped=true`, yet creating a build of `x` (which declares
`d`) DOES fail with `MissingDependencies` — the skipped build does not
satisfy the dependency check. -/
theorem create_build_skipped_dep_counterexample :
    exBuildDSkip.job_id = "d" ∧ exBuildDSkip.finished = true ∧
    exBuildDSkip.success = true ∧ exBuildDSkip.skipped = true ∧
    exStateC3.storage.builds = [exBuildDSkip] ∧
    "d" ∈ exJobX.dependencies ∧
    jc_create_build exStateC3 "x" =
      Except.error (PyErr.missingDependencies
        "Dependency job {0!r} has no successful builds!") := by
  refine ⟨rfl, rfl, rfl, rfl, rfl, ?_, rfl⟩
  show "d" ∈ ["d"]
  exact List.mem_singleton_self "d"

/-- Witness for C3's amended theorem at the concrete skip scenario. -/
theorem create_build_missing_dep_when_skipped_witness :
    jc_create_build exStateC3 "x" =
      Except.error (PyErr.missingDependencies
        "Dependency job {0!r} has no successful builds!") :=
  create_build_missing_dep_when_skipped exStateC3 "x" exJobX "d" rfl
    (List.mem_singleton_self "d")
    (by
      intro dep hdep
      have h2 : dep ∈ ["d"] := hdep
      have h3 : dep = "d" := by simpa using h2
      subst h3
      exact ⟨exJobD, rfl⟩)
    (by
      intro b hb h1 h2 h3 h4
      have hb2 : b ∈ [exBuildDSkip] := hb
      have hb3 : b = exBuildDSkip := by simpa using hb2
      subst hb3
      rfl)

/- Part 3: the progress-report tree (jobcontrol/utils/__init__.py:229-307). -/

/-- A progress tree node (`ProgressReport.__init__`,
utils/__init__.py:232-245): a name, the EXPLICIT current/total (`None`
when unset), a status line, and child nodes. -/
inductive ProgressReport where
  | mk (name : Option String) (pcurrent ptotal : Option Nat)
      (status_line : Option String) (children : List ProgressReport)

def ProgressReport.children : ProgressReport → List ProgressReport
  | .mk _ _ _ _ ch => ch

mutual
/-- The `current` property (utils/__init__.py:247-252): the explicit
value when set, otherwise the sum of the children's effective values. -/
def ProgressReport.current : ProgressReport → Nat
  | .mk _ pc _ _ ch =>
    match pc with
    | some c => c
    | none => ProgressReport.currentSum ch

/-- `sum(x.current for x in self.children)` (the empty sum is 0). -/
def ProgressReport.currentSum : List ProgressReport → Nat
  | [] => 0
  | x :: xs => ProgressReport.current x + ProgressReport.currentSum xs
end

mutual
/-- The `total` property (utils/__init__.py:254-259). -/
def ProgressReport.total : ProgressReport → Nat
  | .mk _ _ pt _ ch =>
    match pt with
    | some t => t
    | none => ProgressReport.totalSum ch

def ProgressReport.totalSum : List ProgressReport → Nat
  | [] => 0
  | x :: xs => ProgressReport.total x + ProgressReport.totalSum xs
end

/-- A row of the progress table handed to `from_table`: `(name, current,
total, status_line)`, the name a path tuple or `None`. -/
structure ProgEntry where
  name : Option (List String)
  current : Option Nat
  total : Option Nat
  status_line : Option String

/-- The `root` computed by `from_table`'s loop (utils/__init__.py:280-283):
the values of the LAST entry whose name is `None` or the empty tuple
(Python's `if not name:` — the loop reassigns `root` on each hit). -/
def progRoot : List ProgEntry → Option (Option Nat × Option Nat × Option String)
  | [] => none
  | e :: rest =>
    match progRoot rest with
    | some x => some x
    | none =>
      match e.name with
      | none => some (e.current, e.total, e.status_line)
      | some [] => some (e.current, e.total, e.status_line)
      | some (_ :: _) => none

/-- The prefixes in first-occurrence order (utils/__init__.py:285-288). -/
def progPrefixes : List ProgEntry → List String
  | [] => []
  | e :: rest =>
    match e.name with
    | some (p :: _) => p :: (progPrefixes rest).filter (fun q => q ≠ p)
    | _ => progPrefixes rest

/-- The sub-table of one prefix: matching entries in order, the prefix
stripped off the name (utils/__init__.py:289-290). -/
def progSubTable (p : String) (table : List ProgEntry) : List ProgEntry :=
  table.filterMap (fun e =>
    match e.name with
    | some (q :: rest) => if q = p then some { e with name := some rest } else none
    | _ => none)

/-- `ProgressReport.from_table` (utils/__init__.py:261-307), fuel-indexed:
the node's own values come from the root entry when there is one
(otherwise all unset), and one child is built recursively per prefix, in
order, from its sub-table, named after the prefix.  Any fuel above the
longest name path reproduces the source's recursion, which strips one
path segment per level. -/
def from_table_fuel : Nat → List ProgEntry → Option String → ProgressReport
  | 0, _, base_name => ProgressReport.mk base_name none none none []
  | fuel + 1, table, base_name =>
    let rootv :=
      match progRoot table with
      | none => ((none : Option Nat), (none : Option Nat), (none : Option String))
      | some x => x
    ProgressReport.mk base_name rootv.1 rootv.2.1 rootv.2.2
      ((progPrefixes table).map (fun p =>
        from_table_fuel fuel (progSubTable p table) (some p)))

/-- The longest name path of a table. -/
def progDepth (table : List ProgEntry) : Nat :=
  table.foldl (fun m e => max m (match e.name with | none => 0 | some l => l.length)) 0

def from_table (table : List ProgEntry) (base_name : Option String) : ProgressReport :=
  from_table_fuel (progDepth table + 1) table base_name

/-- The progress table of the claim:
`[(None,1,10,"root"), (("a",),2,10,"x"), (("a","b"),3,10,"y"), (("c",),5,10,"z")]`. -/
def exProgTable : List ProgEntry :=
  [{ name := none, current := some 1, total := some 10, status_line := some "root" },
   { name := some ["a"], current := some 2, total := some 10, status_line := some "x" },
   { name := some ["a", "b"], current := some 3, total := some 10, status_line := some "y" },
   { name := some ["c"], current := some 5, total := some 10, status_line := some "z" }]

/-- C8: the effective-value laws of the progress tree — a node's
`current`/`total` is its explicit value when set and otherwise the sum of
its children's effective values (the empty sum 0) — and the concrete
evaluation: `from_table` on the claim's four-entry table groups by first
path segment into child nodes in first-occurrence order, uses the
empty-path entry for the node's own values, and yields exactly the
claimed tree, whose root reports `current=1, total=10`. -/
theorem progress_tree_group_and_effective :
    (∀ (n : Option String) (c : Nat) (pt : Option Nat) (sl : Option String)
      (ch : List ProgressReport),
      (ProgressReport.mk n (some c) pt sl ch).current = c) ∧
    (∀ (n : Option String) (pt : Option Nat) (sl : Option String)
      (ch : List ProgressReport),
      (ProgressReport.mk n none pt sl ch).current = ProgressReport.currentSum ch) ∧
    (∀ (x : ProgressReport) (xs : List ProgressReport),
      ProgressReport.currentSum (x :: xs) =
        ProgressReport.current x + ProgressReport.currentSum xs) ∧
    ProgressReport.currentSum [] = 0 ∧
    (∀ (n : Option String) (t : Nat) (pc : Option Nat) (sl : Option String)
      (ch : List ProgressReport),
      (ProgressReport.mk n pc (some t) sl ch).total = t) ∧
    (∀ (n : Option String) (pc : Option Nat) (sl : Option String)
      (ch : List ProgressReport),
      (ProgressReport.mk n pc none sl ch).total = ProgressReport.totalSum ch) ∧
    (∀ (x : ProgressReport) (xs : List ProgressReport),
      ProgressReport.totalSum (x :: xs) =
        ProgressReport.total x + ProgressReport.totalSum xs) ∧
    ProgressReport.totalSum [] = 0 ∧
    from_table exProgTable none =
      ProgressReport.mk none (some 1) (some 10) (some "root")
        [ProgressReport.mk (some "a") (some 2) (some 10) (some "x")
          [ProgressReport.mk (some "b") (some 3) (some 10) (some "y") []],
         ProgressReport.mk (some "c") (some 5) (some 10) (some "z") []] ∧
    (from_table exProgTable none).current = 1 ∧
    (from_table exProgTable none).total = 10 := by
  refine ⟨fun n c pt sl ch => rfl, fun n pt sl ch => rfl, fun x xs => rfl, rfl,
    fun n t pc sl ch => rfl, fun n pc sl ch => rfl, fun x xs => rfl, rfl,
    rfl, rfl, rfl⟩
